import Mathlib

/-!
Verification development for the blog stats service.

The development shallowly embeds the identity-deduplicated stats ledger
(internal/repo/repo.go), the HTTP handler layer with identity
normalization (internal/handler/handler.go), and the periodic backup
scheduler (internal/tasks/backup.go).
-/

namespace Blog

/-! ## Data model (internal/db/db.go, internal/repo/repo.go)

The SQLite schema has one row per slug in post_stats (views, likes) and
two dedup tables ip_views and ip_likes keyed by (ip, post_slug).  The
store is modelled as a map from slug to the (views, likes) pair plus two
finite sets of (ip, post_slug) pairs. -/

/-- Mirrors repo.Stats: Slug, Likes, Views (field order as in the Go struct). -/
structure Stats where
  slug : String
  likes : Nat
  views : Nat
deriving DecidableEq, Repr

/-- The contents of the SQLite database: the post_stats table (a row per
slug holding the views and likes counters) and the ip_views / ip_likes
dedup tables (sets of (ip, post_slug) pairs). -/
structure DBState where
  post_stats : String → Option (Nat × Nat)
  ip_views : Finset (String × String)
  ip_likes : Finset (String × String)

/-- The freshly initialized database: no rows in any table. -/
def emptyDB : DBState :=
  { post_stats := fun _ => none, ip_views := ∅, ip_likes := ∅ }

/-- The views counter visible for a slug: the row's views column, and 0 when
the row is absent. -/
def viewsOf (st : DBState) (slug : String) : Nat :=
  ((st.post_stats slug).getD (0, 0)).1

/-- The likes counter visible for a slug: the row's likes column, and 0 when
the row is absent. -/
def likesOf (st : DBState) (slug : String) : Nat :=
  ((st.post_stats slug).getD (0, 0)).2

/-- Repo.GetStats: INSERT INTO post_stats (slug, views, likes) VALUES (?, 0, 0)
ON CONFLICT(slug) DO UPDATE SET views = views RETURNING views, likes.
Returns the existing row unchanged, or creates and returns a zeroed row. -/
def GetStats (st : DBState) (slug : String) : DBState × Stats :=
  match st.post_stats slug with
  | some vl => (st, { slug := slug, likes := vl.2, views := vl.1 })
  | none =>
    ({ st with post_stats := fun s => if s = slug then some (0, 0) else st.post_stats s },
     { slug := slug, likes := 0, views := 0 })

/-- The counter upsert inside Repo.IncrementViews:
INSERT INTO post_stats (slug, views, likes) VALUES (?, 1, 0)
ON CONFLICT(slug) DO UPDATE SET views = views + 1. -/
def bumpViews (st : DBState) (slug : String) : DBState :=
  { st with post_stats := fun s =>
      if s = slug then
        some (match st.post_stats slug with
              | some vl => (vl.1 + 1, vl.2)
              | none => (1, 0))
      else st.post_stats s }

/-- The counter upsert inside Repo.IncrementLikes:
INSERT INTO post_stats (slug, views, likes) VALUES (?, 0, 1)
ON CONFLICT(slug) DO UPDATE SET likes = likes + 1. -/
def bumpLikes (st : DBState) (slug : String) : DBState :=
  { st with post_stats := fun s =>
      if s = slug then
        some (match st.post_stats slug with
              | some vl => (vl.1, vl.2 + 1)
              | none => (0, 1))
      else st.post_stats s }

/-- The transactional unit of Repo.IncrementViews: insert the dedup record
into ip_views if absent (ON CONFLICT DO NOTHING), and when a row was
actually inserted (RowsAffected > 0), bump the views counter. -/
def viewTxUnit (st : DBState) (ip slug : String) : DBState :=
  if (ip, slug) ∈ st.ip_views then st
  else bumpViews { st with ip_views := insert (ip, slug) st.ip_views } slug

/-- The transactional unit of Repo.IncrementLikes, symmetric to viewTxUnit
over ip_likes and the likes counter. -/
def likeTxUnit (st : DBState) (ip slug : String) : DBState :=
  if (ip, slug) ∈ st.ip_likes then st
  else bumpLikes { st with ip_likes := insert (ip, slug) st.ip_likes } slug

/-- Repo.IncrementViews on the failure-free path: run the transactional
unit, commit, then read the stats back with GetStats. -/
def IncrementViews (st : DBState) (ip slug : String) : DBState × Stats :=
  GetStats (viewTxUnit st ip slug) slug

/-- Repo.IncrementLikes on the failure-free path: run the transactional
unit, commit, then read the stats back with GetStats. -/
def IncrementLikes (st : DBState) (ip slug : String) : DBState × Stats :=
  GetStats (likeTxUnit st ip slug) slug

/-! ## Storage-failure model

Each database call site inside Repo.IncrementViews / Repo.IncrementLikes
can fail independently; the defer tx.Rollback() undoes every uncommitted
write, so a failure before Commit leaves the store untouched.  The final
GetStats read-back happens after Commit. -/

/-- Which of the storage calls inside an increment operation fail:
BeginTx, the dedup INSERT, res.RowsAffected, the counter upsert,
tx.Commit, and the final GetStats read-back. -/
structure FailSpec where
  atBegin : Bool
  atDedupInsert : Bool
  atRowsAffected : Bool
  atCounterUpdate : Bool
  atCommit : Bool
  atReadBack : Bool
deriving DecidableEq, Repr

/-- The failure-free schedule. -/
def noFail : FailSpec :=
  { atBegin := false, atDedupInsert := false, atRowsAffected := false,
    atCounterUpdate := false, atCommit := false, atReadBack := false }

/-- Repo.IncrementViews with storage failures injected at each call site.
Failures before Commit roll the transaction back (store unchanged);
a failure in the post-commit GetStats read-back returns an error with the
committed transactional unit already persisted. -/
def IncrementViewsF (fs : FailSpec) (st : DBState) (ip slug : String) :
    DBState × Except Unit Stats :=
  if fs.atBegin then (st, .error ()) else
  if fs.atDedupInsert then (st, .error ()) else
  if fs.atRowsAffected then (st, .error ()) else
  if (ip, slug) ∉ st.ip_views ∧ fs.atCounterUpdate then (st, .error ()) else
  if fs.atCommit then (st, .error ()) else
  let st1 := viewTxUnit st ip slug
  if fs.atReadBack then (st1, .error ())
  else ((GetStats st1 slug).1, .ok (GetStats st1 slug).2)

/-- Repo.IncrementLikes with storage failures injected at each call site,
symmetric to IncrementViewsF. -/
def IncrementLikesF (fs : FailSpec) (st : DBState) (ip slug : String) :
    DBState × Except Unit Stats :=
  if fs.atBegin then (st, .error ()) else
  if fs.atDedupInsert then (st, .error ()) else
  if fs.atRowsAffected then (st, .error ()) else
  if (ip, slug) ∉ st.ip_likes ∧ fs.atCounterUpdate then (st, .error ()) else
  if fs.atCommit then (st, .error ()) else
  let st1 := likeTxUnit st ip slug
  if fs.atReadBack then (st1, .error ())
  else ((GetStats st1 slug).1, .ok (GetStats st1 slug).2)

/-- Repo.GetStats with a storage failure injected at its single query. -/
def GetStatsF (fail : Bool) (st : DBState) (slug : String) :
    DBState × Except Unit Stats :=
  if fail then (st, .error ())
  else ((GetStats st slug).1, .ok (GetStats st slug).2)

/-! ## Reachable states

States reachable from the empty store by any sequence of the three
public ledger operations. -/

/-- States reachable from the freshly initialized database by GetStats,
IncrementViews and IncrementLikes calls. -/
inductive Reachable : DBState → Prop where
  | empty : Reachable emptyDB
  | getStats (st : DBState) (slug : String) :
      Reachable st → Reachable (GetStats st slug).1
  | incViews (st : DBState) (ip slug : String) :
      Reachable st → Reachable (IncrementViews st ip slug).1
  | incLikes (st : DBState) (ip slug : String) :
      Reachable st → Reachable (IncrementLikes st ip slug).1

/-! ## Identity normalization (internal/handler/handler.go)

NormalizeIP first strips a port with net.SplitHostPort, then parses with
net.ParseIP (which dispatches on the first special character and returns
the 16-byte As16 form), returns IPv4 addresses verbatim via To4().String()
and masks IPv6 addresses with CIDRMask(64, 128) before printing.
Strings are handled as character lists; every character relevant to the
parsers is ASCII, so character positions coincide with Go's byte
positions. -/

/-- Decimal digit test, mirroring the character ranges in the Go parsers. -/
def isDec (c : Char) : Bool := 48 ≤ c.toNat && c.toNat ≤ 57

/-- Value of a decimal digit character. -/
def digitVal (c : Char) : Nat := c.toNat - 48

/-- Hexadecimal digit value per the three ranges in netip.parseIPv6. -/
def hexVal (c : Char) : Option Nat :=
  if 48 ≤ c.toNat && c.toNat ≤ 57 then some (c.toNat - 48)
  else if 97 ≤ c.toNat && c.toNat ≤ 102 then some (c.toNat - 97 + 10)
  else if 65 ≤ c.toNat && c.toNat ≤ 70 then some (c.toNat - 65 + 10)
  else none

/-- Hexadecimal digit test. -/
def isHex (c : Char) : Bool := (hexVal c).isSome

/-- Splits a character list at every occurrence of a separator, keeping
empty fields (like strings.Split for a one-character separator). -/
def splitOnChar (sep : Char) : List Char → List (List Char)
  | [] => [[]]
  | c :: cs =>
    if c = sep then [] :: splitOnChar sep cs
    else
      match splitOnChar sep cs with
      | f :: rest => (c :: f) :: rest
      | [] => [[c]]

/-- Field boundaries of netip.parseIPv4Fields: the text between dots. -/
def splitDots : List Char → List (List Char) := splitOnChar '.'

/-- Accumulator loop of the decimal field value (val = val*10 + digit). -/
def decValAux : List Char → Nat → Nat
  | [], a => a
  | c :: cs, a => decValAux cs (a * 10 + digitVal c)

/-- Decimal value of a digit string. -/
def decVal (f : List Char) : Nat := decValAux f 0

/-- A valid IPv4 field per netip.parseIPv4Fields: nonempty, all decimal
digits, no octet with a leading zero (a lone zero is allowed), and value
at most 255. -/
def fieldOk (f : List Char) : Bool :=
  !f.isEmpty && f.all isDec && (f.length == 1 || !(f.headD ' ' == '0')) &&
    decVal f ≤ 255

/-- netip.parseIPv4: exactly four dot-separated valid fields. -/
def parseV4 (s : List Char) : Option (List Nat) :=
  match splitDots s with
  | [f0, f1, f2, f3] =>
    if fieldOk f0 && fieldOk f1 && fieldOk f2 && fieldOk f3 then
      some [decVal f0, decVal f1, decVal f2, decVal f3]
    else none
  | _ => none

/-- netip.AddrFrom4 followed by As16: the IPv4-mapped 16-byte form. -/
def v4InV6 (b : List Nat) : List Nat :=
  [0, 0, 0, 0, 0, 0, 0, 0, 0, 0, 255, 255] ++ b

/-- Accumulator loop of the hexadecimal group value (acc = acc<<4 + digit). -/
def hexGroupValAux : List Char → Nat → Nat
  | [], a => a
  | c :: cs, a => hexGroupValAux cs (a * 16 + (hexVal c).getD 0)

/-- Hexadecimal value of a group digit string. -/
def hexGroupVal (f : List Char) : Nat := hexGroupValAux f 0

/-- The two bytes of a group value as written by the loop body
(ip[i] = byte(acc>>8); ip[i+1] = byte(acc)). -/
def groupBytes (acc : Nat) : List Nat := [(acc >>> 8) % 256, acc % 256]

/-- The main loop of netip.parseIPv6, with explicit structural fuel (the
initial fuel exceeds the input length, so it never runs out on the real
call).  State: remaining input, bytes filled so far (i), ellipsis
position, accumulated bytes.  Each iteration scans one hex group (at
most 4 digits), handles a trailing embedded IPv4 address, writes the two
group bytes, and consumes the separator, recording a double colon as the
ellipsis.  Returns the accumulated bytes, the ellipsis and the count. -/
def v6Loop : Nat → List Char → Nat → Option Nat → List Nat →
    Option (List Nat × Option Nat × Nat)
  | 0, _, _, _, _ => none
  | fuel + 1, s, i, ell, bytes =>
    if 16 ≤ i then none
    else if (s.takeWhile isHex).length = 0 then none
    else if 4 < (s.takeWhile isHex).length then none
    else
      match s.dropWhile isHex with
      | '.' :: _ =>
        if ell = none ∧ i ≠ 12 then none
        else if 16 < i + 4 then none
        else
          match parseV4 s with
          | some b4 => some (bytes ++ b4, ell, i + 4)
          | none => none
      | [] => some (bytes ++ groupBytes (hexGroupVal (s.takeWhile isHex)), ell, i + 2)
      | ':' :: rest2 =>
        match rest2 with
        | [] => none
        | ':' :: rest3 =>
          if ell.isSome then none
          else
            match rest3 with
            | [] => some (bytes ++ groupBytes (hexGroupVal (s.takeWhile isHex)),
                some (i + 2), i + 2)
            | _ => v6Loop fuel rest3 (i + 2) (some (i + 2))
                (bytes ++ groupBytes (hexGroupVal (s.takeWhile isHex)))
        | _ => v6Loop fuel rest2 (i + 2) ell
            (bytes ++ groupBytes (hexGroupVal (s.takeWhile isHex)))
      | _ => none

/-- The tail of netip.parseIPv6: reject trailing input (folded into the
loop), and expand the ellipsis; a full address with an ellipsis is
rejected because the double colon must cover at least one zero group. -/
def v6Expand : Option (List Nat × Option Nat × Nat) → Option (List Nat)
  | none => none
  | some (bytes, ell, i) =>
    if i < 16 then
      match ell with
      | none => none
      | some e => some (bytes.take e ++ List.replicate (16 - i) 0 ++ bytes.drop e)
    else
      match ell with
      | none => some bytes
      | some _ => none

/-- netip.parseIPv6 as used by net.ParseIP: every zoned address (any
input containing a percent sign) is rejected, a leading double colon
presets the ellipsis, then the main loop runs. -/
def parseV6 (s : List Char) : Option (List Nat) :=
  if s.contains '%' then none
  else if s.take 2 = [':', ':'] then
    (if s.drop 2 = [] then some (List.replicate 16 0)
     else v6Expand (v6Loop (s.length + 1) (s.drop 2) 0 (some 0) []))
  else v6Expand (v6Loop (s.length + 1) s 0 none [])

/-- The dispatch scan of netip.ParseAddr: the first special character
decides between the IPv4 and IPv6 grammars (a bare percent sign is an
error); the full string is handed to the chosen parser. -/
def dispatchIP (full : List Char) : List Char → Option (List Nat)
  | [] => none
  | c :: cs =>
    if c = '.' then (parseV4 full).map v4InV6
    else if c = ':' then parseV6 full
    else if c = '%' then none
    else dispatchIP full cs

/-- net.ParseIP: the 16-byte As16 form of the parsed address, or none. -/
def ParseIP (s : List Char) : Option (List Nat) := dispatchIP s s

/-- The IPv4-mapped test of net.IP.To4 on a 16-byte address: ten zero
bytes then two 0xff bytes. -/
def isV4Mapped (b : List Nat) : Bool :=
  b.take 12 == [0, 0, 0, 0, 0, 0, 0, 0, 0, 0, 255, 255]

/-- net.IP.To4: a 4-byte address is returned as is; a 16-byte
IPv4-mapped address yields its last four bytes; anything else fails. -/
def To4 (b : List Nat) : Option (List Nat) :=
  if b.length = 4 then some b
  else if b.length = 16 ∧ isV4Mapped b then some (b.drop 12)
  else none

/-- net.CIDRMask(64, 128): eight 0xff bytes then eight zero bytes. -/
def cidrMask64 : List Nat := List.replicate 8 255 ++ List.replicate 8 0

/-- net.IP.Mask for a 16-byte address and a 16-byte mask: bytewise AND. -/
def maskIP (b m : List Nat) : List Nat := List.zipWith (fun x y => x &&& y) b m

/-- Decimal text of a byte value (0..255) as printed for IPv4 addresses:
no leading zeros. -/
def decByte (n : Nat) : List Char :=
  if n < 10 then [Char.ofNat (48 + n)]
  else if n < 100 then [Char.ofNat (48 + n / 10), Char.ofNat (48 + n % 10)]
  else [Char.ofNat (48 + n / 100), Char.ofNat (48 + n / 10 % 10), Char.ofNat (48 + n % 10)]

/-- The dotted-quad form appended by the String method for 4-byte input. -/
def v4Chars (b : List Nat) : List Char :=
  match b with
  | [x0, x1, x2, x3] =>
    decByte x0 ++ '.' :: decByte x1 ++ '.' :: decByte x2 ++ '.' :: decByte x3
  | _ => []

/-- A lowercase hexadecimal digit character. -/
def hexDigitCh (n : Nat) : Char :=
  if n < 10 then Char.ofNat (48 + n) else Char.ofNat (97 + n - 10)

/-- Lowercase hexadecimal text of a group value (0..0xffff), no leading
zeros, as appended by the String method. -/
def hexGroupChars (n : Nat) : List Char :=
  if n < 16 then [hexDigitCh n]
  else if n < 256 then [hexDigitCh (n / 16), hexDigitCh (n % 16)]
  else if n < 4096 then
    [hexDigitCh (n / 256), hexDigitCh (n / 16 % 16), hexDigitCh (n % 16)]
  else
    [hexDigitCh (n / 4096), hexDigitCh (n / 256 % 16), hexDigitCh (n / 16 % 16),
     hexDigitCh (n % 16)]

/-- The eight 16-bit groups of a 16-byte address (high byte first). -/
def v6Groups : List Nat → List Nat
  | a :: b :: rest => ((a <<< 8) ||| b) :: v6Groups rest
  | _ => []

/-- Length of the zero-group run starting at group index i. -/
def zerosFrom (gs : List Nat) (i : Nat) : Nat :=
  ((gs.drop i).takeWhile (· == 0)).length

/-- The zero-run scan of the String method: the leftmost longest run of
at least two zero groups, with 255 as the Go sentinel for "no run". -/
def bestZeroRun (gs : List Nat) : Nat × Nat :=
  (List.range gs.length).foldl
    (fun best i =>
      let l := zerosFrom gs i
      if 2 ≤ l ∧ best.2 - best.1 < l then (i, i + l) else best)
    (255, 255)

/-- The printing loop of the String method for a 16-byte address: hex
groups joined by colons, with the chosen zero run rendered as a double
colon.  Structural fuel (9 suffices for 8 groups). -/
def v6PrintLoop (gs : List Nat) (e0 e1 : Nat) : Nat → Nat → List Char
  | 0, _ => []
  | fuel + 1, i =>
    if 8 ≤ i then []
    else if i = e0 then
      ':' :: ':' ::
        (if 8 ≤ e1 then []
         else hexGroupChars (gs.getD e1 0) ++ v6PrintLoop gs e0 e1 fuel (e1 + 1))
    else
      (if i = 0 then [] else [':']) ++ hexGroupChars (gs.getD i 0) ++
        v6PrintLoop gs e0 e1 fuel (i + 1)

/-- net.IP.String: dotted-quad whenever To4 succeeds, otherwise the
canonical compressed IPv6 text. -/
def ipToString (b : List Nat) : List Char :=
  match To4 b with
  | some b4 => v4Chars b4
  | none =>
    let gs := v6Groups b
    let r := bestZeroRun gs
    v6PrintLoop gs r.1 r.2 9 0

/-- Index of the first occurrence of a character. -/
def firstIdx (s : List Char) (c : Char) : Option Nat := s.findIdx? (· == c)

/-- Index of the last occurrence of a character (last(hostPort, ':')). -/
def lastIdx (s : List Char) (c : Char) : Option Nat :=
  match s with
  | [] => none
  | a :: rest =>
    match lastIdx rest c with
    | some j => some (j + 1)
    | none => if a = c then some 0 else none

/-- net.SplitHostPort, returning only the host on success: split at the
last colon; a bracketed host must be immediately followed by the port
colon; an unbracketed host may not contain a colon; stray brackets are
rejected. -/
def splitHostPort (s : List Char) : Option (List Char) :=
  match lastIdx s ':' with
  | none => none
  | some i =>
    if s.headD ' ' = '[' then
      match firstIdx s ']' with
      | none => none
      | some e =>
        if e + 1 = s.length then none
        else if e + 1 = i then
          if (s.drop 1).contains '[' then none
          else if (s.drop (e + 1)).contains ']' then none
          else some ((s.drop 1).take (e - 1))
        else none
    else
      if (s.take i).contains ':' then none
      else if s.contains '[' then none
      else if s.contains ']' then none
      else some (s.take i)

/-- handler.NormalizeIP over character lists: strip the port when
SplitHostPort succeeds, parse, return IPv4 verbatim via To4().String(),
mask IPv6 with CIDRMask(64, 128); the empty list signals failure. -/
def normalizeIPChars (address : List Char) : List Char :=
  let address := (splitHostPort address).getD address
  match ParseIP address with
  | none => []
  | some ip =>
    match To4 ip with
    | some ip4 => v4Chars ip4
    | none => ipToString (maskIP ip cidrMask64)

/-- handler.NormalizeIP. -/
def NormalizeIP (s : String) : String := String.mk (normalizeIPChars s.data)

/-! ## Request handling (internal/handler/handler.go) -/

/-- The parts of an http.Request the handlers consult.  Header.Get
returns the empty string when a header is absent. -/
structure Request where
  slug : String
  xForwardedFor : String
  xRealIP : String
  remoteAddr : String

/-- unicode.IsSpace as used by strings.TrimSpace: the Latin-1 white
space characters plus the Unicode space separators. -/
def isGoSpace (c : Char) : Bool :=
  c == ' ' || c == '\t' || c == '\n' || (c.toNat == 11) || (c.toNat == 12) ||
  c == '\r' || (c.toNat == 0x85) || (c.toNat == 0xA0) || (c.toNat == 0x1680) ||
  (0x2000 ≤ c.toNat && c.toNat ≤ 0x200A) || (c.toNat == 0x2028) ||
  (c.toNat == 0x2029) || (c.toNat == 0x202F) || (c.toNat == 0x205F) ||
  (c.toNat == 0x3000)

/-- strings.TrimSpace on character lists. -/
def trimSpace (s : List Char) : List Char :=
  ((s.dropWhile isGoSpace).reverse.dropWhile isGoSpace).reverse

/-- handler.GetClientIP: the first X-Forwarded-For entry when that
header is present, else X-Real-IP, else the direct connection address;
the chosen value is normalized. -/
def GetClientIP (r : Request) : String :=
  if r.xForwardedFor ≠ "" then
    NormalizeIP (String.mk (trimSpace ((splitOnChar ',' r.xForwardedFor.data).headD [])))
  else if r.xRealIP ≠ "" then NormalizeIP r.xRealIP
  else NormalizeIP r.remoteAddr

/-- The character class of slugRegex (lowercase letters, digits, hyphen). -/
def slugChar (c : Char) : Bool :=
  ('a' ≤ c && c ≤ 'z' : Bool) || ('0' ≤ c && c ≤ '9' : Bool) || c == '-'

/-- handler.isValidSlug: nonempty, fewer than 100 bytes, and matched by
slugRegex (on a nonempty string the regex holds exactly when every
character is in the class). -/
def isValidSlug (slug : String) : Prop :=
  0 < slug.utf8ByteSize ∧ slug.utf8ByteSize < 100 ∧ slug.data.all slugChar

instance : DecidablePred isValidSlug := fun s => by
  unfold isValidSlug; infer_instance

/-- The observable outcome of a handler call. -/
inductive HResponse where
  | ok (stats : Stats)
  | badRequest (msg : String)
  | serverError
deriving DecidableEq, Repr

/-- handler.Handler.HandleView on the failure-free path: slug
validation, then identity derivation, then the ledger increment. -/
def HandleView (r : Request) (st : DBState) : DBState × HResponse :=
  if ¬ isValidSlug r.slug then (st, .badRequest "invalid slug format")
  else if GetClientIP r = "" then (st, .badRequest "invalid request ip")
  else ((IncrementViews st (GetClientIP r) r.slug).1,
        .ok (IncrementViews st (GetClientIP r) r.slug).2)

/-- handler.Handler.HandleLike on the failure-free path. -/
def HandleLike (r : Request) (st : DBState) : DBState × HResponse :=
  if ¬ isValidSlug r.slug then (st, .badRequest "invalid slug format")
  else if GetClientIP r = "" then (st, .badRequest "invalid request ip")
  else ((IncrementLikes st (GetClientIP r) r.slug).1,
        .ok (IncrementLikes st (GetClientIP r) r.slug).2)

/-- handler.Handler.HandleGetStats on the failure-free path (the
sql.ErrNoRows branch is dead: the upsert-based GetStats always returns
a row when the storage layer does not fail). -/
def HandleGetStats (r : Request) (st : DBState) : DBState × HResponse :=
  if ¬ isValidSlug r.slug then (st, .badRequest "invalid slug format")
  else ((GetStats st r.slug).1, .ok (GetStats st r.slug).2)

/-! ## Backup scheduler (internal/tasks/backup.go) -/

/-- One event observed by the select loop of BackupService.Start: a
timer tick (with the storage file content visible at that tick, none
modelling an os.Open failure, and the outcome of the upload call) or
the context cancellation. -/
inductive SchedEvent where
  | tick (fileContent : Option (List Nat)) (uploadOk : Bool)
  | cancel

/-- Whether an event is the cancellation signal. -/
def SchedEvent.isCancel : SchedEvent → Bool
  | .cancel => true
  | .tick _ _ => false

/-- One call to SpaceClient.UploadFile: destination key and byte body. -/
structure UploadCall where
  key : String
  body : List Nat
deriving DecidableEq, Repr

/-- The fixed destination key in BackupService.performBackup. -/
def backupObjectKey : String := "backups/blog.db"

/-- BackupService.performBackup: open the storage file and upload its
full content under the fixed key; an open failure uploads nothing. -/
def performBackup (fileContent : Option (List Nat)) : Option UploadCall :=
  fileContent.map (fun c => { key := backupObjectKey, body := c })

/-- The select loop of BackupService.Start: each tick runs exactly one
performBackup whose failure is only logged (the loop always continues);
cancellation stops the ticker and ends the loop.  Returns the upload
calls in order and whether the loop was stopped by cancellation. -/
def runScheduler : List SchedEvent → List UploadCall × Bool
  | [] => ([], false)
  | .cancel :: _ => ([], true)
  | .tick c _ :: rest =>
    ((performBackup c).toList ++ (runScheduler rest).1, (runScheduler rest).2)

/-! ## Ledger lemmas -/

theorem GetStats_snd (st : DBState) (slug : String) :
    (GetStats st slug).2 =
      { slug := slug, likes := likesOf st slug, views := viewsOf st slug } := by
  unfold GetStats viewsOf likesOf
  cases h : st.post_stats slug <;> simp [h]

theorem GetStats_views (st : DBState) (slug s : String) :
    viewsOf (GetStats st slug).1 s = viewsOf st s := by
  unfold GetStats viewsOf
  cases h : st.post_stats slug with
  | some vl => simp [h]
  | none =>
    by_cases hs : s = slug <;> simp [h, hs]

theorem GetStats_likes (st : DBState) (slug s : String) :
    likesOf (GetStats st slug).1 s = likesOf st s := by
  unfold GetStats likesOf
  cases h : st.post_stats slug with
  | some vl => simp [h]
  | none =>
    by_cases hs : s = slug <;> simp [h, hs]

theorem GetStats_ip_views (st : DBState) (slug : String) :
    (GetStats st slug).1.ip_views = st.ip_views := by
  unfold GetStats
  cases h : st.post_stats slug <;> simp [h]

theorem GetStats_ip_likes (st : DBState) (slug : String) :
    (GetStats st slug).1.ip_likes = st.ip_likes := by
  unfold GetStats
  cases h : st.post_stats slug <;> simp [h]

theorem bumpViews_views_self (st : DBState) (slug : String) :
    viewsOf (bumpViews st slug) slug = viewsOf st slug + 1 := by
  unfold bumpViews viewsOf
  cases h : st.post_stats slug <;> simp [h]

theorem bumpViews_views_other (st : DBState) (slug s : String) (hs : s ≠ slug) :
    viewsOf (bumpViews st slug) s = viewsOf st s := by
  unfold bumpViews viewsOf
  simp [hs]

theorem bumpViews_likes (st : DBState) (slug s : String) :
    likesOf (bumpViews st slug) s = likesOf st s := by
  unfold bumpViews likesOf
  by_cases hs : s = slug
  · subst hs
    cases h : st.post_stats s <;> simp [h]
  · simp [hs]

theorem bumpLikes_likes_self (st : DBState) (slug : String) :
    likesOf (bumpLikes st slug) slug = likesOf st slug + 1 := by
  unfold bumpLikes likesOf
  cases h : st.post_stats slug <;> simp [h]

theorem bumpLikes_likes_other (st : DBState) (slug s : String) (hs : s ≠ slug) :
    likesOf (bumpLikes st slug) s = likesOf st s := by
  unfold bumpLikes likesOf
  simp [hs]

theorem bumpLikes_views (st : DBState) (slug s : String) :
    viewsOf (bumpLikes st slug) s = viewsOf st s := by
  unfold bumpLikes viewsOf
  by_cases hs : s = slug
  · subst hs
    cases h : st.post_stats s <;> simp [h]
  · simp [hs]

theorem viewTxUnit_of_mem (st : DBState) (ip slug : String)
    (h : (ip, slug) ∈ st.ip_views) : viewTxUnit st ip slug = st := by
  simp [viewTxUnit, h]

theorem viewTxUnit_ip_views (st : DBState) (ip slug : String) :
    (viewTxUnit st ip slug).ip_views = insert (ip, slug) st.ip_views := by
  unfold viewTxUnit
  by_cases h : (ip, slug) ∈ st.ip_views
  · simp [h, Finset.insert_eq_self.mpr h]
  · simp [h, bumpViews]

theorem viewTxUnit_ip_likes (st : DBState) (ip slug : String) :
    (viewTxUnit st ip slug).ip_likes = st.ip_likes := by
  unfold viewTxUnit
  by_cases h : (ip, slug) ∈ st.ip_views <;> simp [h, bumpViews]

theorem viewTxUnit_views_self (st : DBState) (ip slug : String)
    (h : (ip, slug) ∉ st.ip_views) :
    viewsOf (viewTxUnit st ip slug) slug = viewsOf st slug + 1 := by
  unfold viewTxUnit
  simp only [h, if_neg, ite_false]
  exact bumpViews_views_self { st with ip_views := insert (ip, slug) st.ip_views } slug

theorem viewTxUnit_views_other (st : DBState) (ip slug s : String) (hs : s ≠ slug) :
    viewsOf (viewTxUnit st ip slug) s = viewsOf st s := by
  unfold viewTxUnit
  by_cases h : (ip, slug) ∈ st.ip_views
  · simp [h]
  · simp only [h, if_neg, ite_false]
    exact bumpViews_views_other { st with ip_views := insert (ip, slug) st.ip_views } slug s hs

theorem viewTxUnit_likes (st : DBState) (ip slug s : String) :
    likesOf (viewTxUnit st ip slug) s = likesOf st s := by
  unfold viewTxUnit
  by_cases h : (ip, slug) ∈ st.ip_views
  · simp [h]
  · simp only [h, if_neg, ite_false]
    exact bumpViews_likes { st with ip_views := insert (ip, slug) st.ip_views } slug s

theorem likeTxUnit_of_mem (st : DBState) (ip slug : String)
    (h : (ip, slug) ∈ st.ip_likes) : likeTxUnit st ip slug = st := by
  simp [likeTxUnit, h]

theorem likeTxUnit_ip_likes (st : DBState) (ip slug : String) :
    (likeTxUnit st ip slug).ip_likes = insert (ip, slug) st.ip_likes := by
  unfold likeTxUnit
  by_cases h : (ip, slug) ∈ st.ip_likes
  · simp [h, Finset.insert_eq_self.mpr h]
  · simp [h, bumpLikes]

theorem likeTxUnit_ip_views (st : DBState) (ip slug : String) :
    (likeTxUnit st ip slug).ip_views = st.ip_views := by
  unfold likeTxUnit
  by_cases h : (ip, slug) ∈ st.ip_likes <;> simp [h, bumpLikes]

theorem likeTxUnit_likes_self (st : DBState) (ip slug : String)
    (h : (ip, slug) ∉ st.ip_likes) :
    likesOf (likeTxUnit st ip slug) slug = likesOf st slug + 1 := by
  unfold likeTxUnit
  simp only [h, if_neg, ite_false]
  exact bumpLikes_likes_self { st with ip_likes := insert (ip, slug) st.ip_likes } slug

theorem likeTxUnit_likes_other (st : DBState) (ip slug s : String) (hs : s ≠ slug) :
    likesOf (likeTxUnit st ip slug) s = likesOf st s := by
  unfold likeTxUnit
  by_cases h : (ip, slug) ∈ st.ip_likes
  · simp [h]
  · simp only [h, if_neg, ite_false]
    exact bumpLikes_likes_other { st with ip_likes := insert (ip, slug) st.ip_likes } slug s hs

theorem likeTxUnit_views (st : DBState) (ip slug s : String) :
    viewsOf (likeTxUnit st ip slug) s = viewsOf st s := by
  unfold likeTxUnit
  by_cases h : (ip, slug) ∈ st.ip_likes
  · simp [h]
  · simp only [h, if_neg, ite_false]
    exact bumpLikes_views { st with ip_likes := insert (ip, slug) st.ip_likes } slug s

theorem IncrementViews_snd (st : DBState) (ip slug : String) :
    (IncrementViews st ip slug).2 =
      { slug := slug, likes := likesOf (viewTxUnit st ip slug) slug,
        views := viewsOf (viewTxUnit st ip slug) slug } := by
  unfold IncrementViews
  exact GetStats_snd (viewTxUnit st ip slug) slug

theorem IncrementLikes_snd (st : DBState) (ip slug : String) :
    (IncrementLikes st ip slug).2 =
      { slug := slug, likes := likesOf (likeTxUnit st ip slug) slug,
        views := viewsOf (likeTxUnit st ip slug) slug } := by
  unfold IncrementLikes
  exact GetStats_snd (likeTxUnit st ip slug) slug

theorem IncrementViews_views (st : DBState) (ip slug s : String) :
    viewsOf (IncrementViews st ip slug).1 s = viewsOf (viewTxUnit st ip slug) s := by
  unfold IncrementViews
  exact GetStats_views (viewTxUnit st ip slug) slug s

theorem IncrementViews_likes (st : DBState) (ip slug s : String) :
    likesOf (IncrementViews st ip slug).1 s = likesOf st s := by
  unfold IncrementViews
  rw [GetStats_likes]
  exact viewTxUnit_likes st ip slug s

theorem IncrementViews_ip_views (st : DBState) (ip slug : String) :
    (IncrementViews st ip slug).1.ip_views = insert (ip, slug) st.ip_views := by
  unfold IncrementViews
  rw [GetStats_ip_views]
  exact viewTxUnit_ip_views st ip slug

theorem IncrementViews_ip_likes (st : DBState) (ip slug : String) :
    (IncrementViews st ip slug).1.ip_likes = st.ip_likes := by
  unfold IncrementViews
  rw [GetStats_ip_likes]
  exact viewTxUnit_ip_likes st ip slug

theorem IncrementLikes_likes (st : DBState) (ip slug s : String) :
    likesOf (IncrementLikes st ip slug).1 s = likesOf (likeTxUnit st ip slug) s := by
  unfold IncrementLikes
  exact GetStats_likes (likeTxUnit st ip slug) slug s

theorem IncrementLikes_views (st : DBState) (ip slug s : String) :
    viewsOf (IncrementLikes st ip slug).1 s = viewsOf st s := by
  unfold IncrementLikes
  rw [GetStats_views]
  exact likeTxUnit_views st ip slug s

theorem IncrementLikes_ip_likes (st : DBState) (ip slug : String) :
    (IncrementLikes st ip slug).1.ip_likes = insert (ip, slug) st.ip_likes := by
  unfold IncrementLikes
  rw [GetStats_ip_likes]
  exact likeTxUnit_ip_likes st ip slug

theorem IncrementLikes_ip_views (st : DBState) (ip slug : String) :
    (IncrementLikes st ip slug).1.ip_views = st.ip_views := by
  unfold IncrementLikes
  rw [GetStats_ip_views]
  exact likeTxUnit_ip_views st ip slug

/-- Claim C1: for every state, identity and slug, IncrementViews is a
no-op on every counter and on both dedup sets when the view-dedup record
already exists, returning the current stats; otherwise it inserts the
dedup record, increments exactly the views counter of that slug and
returns the post-increment stats.  IncrementLikes behaves symmetrically
over the like-dedup set and likes counter.  In particular a double
IncrementLikes for one identity and slug from the empty store returns
likes equal to one both times. -/
theorem increment_dedup_exactly_once : ∀ st : DBState, ∀ ip slug : String,
    (((ip, slug) ∈ st.ip_views →
        (∀ s, viewsOf (IncrementViews st ip slug).1 s = viewsOf st s ∧
              likesOf (IncrementViews st ip slug).1 s = likesOf st s) ∧
        (IncrementViews st ip slug).1.ip_views = st.ip_views ∧
        (IncrementViews st ip slug).1.ip_likes = st.ip_likes ∧
        (IncrementViews st ip slug).2 =
          { slug := slug, likes := likesOf st slug, views := viewsOf st slug }) ∧
     ((ip, slug) ∉ st.ip_views →
        (IncrementViews st ip slug).1.ip_views = insert (ip, slug) st.ip_views ∧
        (IncrementViews st ip slug).1.ip_likes = st.ip_likes ∧
        viewsOf (IncrementViews st ip slug).1 slug = viewsOf st slug + 1 ∧
        (∀ s, s ≠ slug → viewsOf (IncrementViews st ip slug).1 s = viewsOf st s) ∧
        (∀ s, likesOf (IncrementViews st ip slug).1 s = likesOf st s) ∧
        (IncrementViews st ip slug).2 =
          { slug := slug, likes := likesOf st slug, views := viewsOf st slug + 1 })) ∧
    (((ip, slug) ∈ st.ip_likes →
        (∀ s, viewsOf (IncrementLikes st ip slug).1 s = viewsOf st s ∧
              likesOf (IncrementLikes st ip slug).1 s = likesOf st s) ∧
        (IncrementLikes st ip slug).1.ip_views = st.ip_views ∧
        (IncrementLikes st ip slug).1.ip_likes = st.ip_likes ∧
        (IncrementLikes st ip slug).2 =
          { slug := slug, likes := likesOf st slug, views := viewsOf st slug }) ∧
     ((ip, slug) ∉ st.ip_likes →
        (IncrementLikes st ip slug).1.ip_likes = insert (ip, slug) st.ip_likes ∧
        (IncrementLikes st ip slug).1.ip_views = st.ip_views ∧
        likesOf (IncrementLikes st ip slug).1 slug = likesOf st slug + 1 ∧
        (∀ s, s ≠ slug → likesOf (IncrementLikes st ip slug).1 s = likesOf st s) ∧
        (∀ s, viewsOf (IncrementLikes st ip slug).1 s = viewsOf st s) ∧
        (IncrementLikes st ip slug).2 =
          { slug := slug, likes := likesOf st slug + 1, views := viewsOf st slug })) ∧
    ((IncrementLikes emptyDB ("203.0.113.5") ("go-sqlite")).2.likes = 1 ∧
     (IncrementLikes (IncrementLikes emptyDB ("203.0.113.5") ("go-sqlite")).1
        ("203.0.113.5") ("go-sqlite")).2.likes = 1) := by
  intro st ip slug
  refine ⟨⟨fun h => ?_, fun h => ?_⟩, ⟨fun h => ?_, fun h => ?_⟩, ?_⟩
  · refine ⟨fun s => ?_, ?_, ?_, ?_⟩
    · rw [IncrementViews_views, IncrementViews_likes, viewTxUnit_of_mem st ip slug h]
      exact ⟨rfl, rfl⟩
    · rw [IncrementViews_ip_views]
      exact Finset.insert_eq_self.mpr h
    · exact IncrementViews_ip_likes st ip slug
    · rw [IncrementViews_snd, viewTxUnit_of_mem st ip slug h]
  · refine ⟨IncrementViews_ip_views st ip slug, IncrementViews_ip_likes st ip slug,
      ?_, fun s hs => ?_, fun s => ?_, ?_⟩
    · rw [IncrementViews_views]
      exact viewTxUnit_views_self st ip slug h
    · rw [IncrementViews_views]
      exact viewTxUnit_views_other st ip slug s hs
    · exact IncrementViews_likes st ip slug s
    · rw [IncrementViews_snd, viewTxUnit_likes, viewTxUnit_views_self st ip slug h]
  · refine ⟨fun s => ?_, ?_, ?_, ?_⟩
    · rw [IncrementLikes_likes, IncrementLikes_views, likeTxUnit_of_mem st ip slug h]
      exact ⟨rfl, rfl⟩
    · exact IncrementLikes_ip_views st ip slug
    · rw [IncrementLikes_ip_likes]
      exact Finset.insert_eq_self.mpr h
    · rw [IncrementLikes_snd, likeTxUnit_of_mem st ip slug h]
  · refine ⟨IncrementLikes_ip_likes st ip slug, IncrementLikes_ip_views st ip slug,
      ?_, fun s hs => ?_, fun s => ?_, ?_⟩
    · rw [IncrementLikes_likes]
      exact likeTxUnit_likes_self st ip slug h
    · rw [IncrementLikes_likes]
      exact likeTxUnit_likes_other st ip slug s hs
    · exact IncrementLikes_views st ip slug s
    · rw [IncrementLikes_snd, likeTxUnit_views, likeTxUnit_likes_self st ip slug h]
  · constructor <;> decide

/-- Witness for C1: a concrete fresh increment from the empty store
inserts the dedup record and bumps the views counter by one. -/
theorem increment_dedup_exactly_once_witness :
    ((("198.51.100.7" : String), ("go-sqlite" : String)) ∉ emptyDB.ip_views) ∧
    viewsOf (IncrementViews emptyDB ("198.51.100.7") ("go-sqlite")).1 ("go-sqlite") =
      viewsOf emptyDB ("go-sqlite") + 1 :=
  ⟨by decide,
   (((increment_dedup_exactly_once emptyDB ("198.51.100.7") ("go-sqlite")).1.2
      (by decide)).2.2).1⟩

/-- Claim C6: a successful IncrementLikes never changes any views
counter and a successful IncrementViews never changes any likes counter:
the two counters are mutated independently. -/
theorem counters_independent : ∀ st : DBState, ∀ ip slug s : String,
    viewsOf (IncrementLikes st ip slug).1 s = viewsOf st s ∧
    likesOf (IncrementViews st ip slug).1 s = likesOf st s :=
  fun st ip slug s => ⟨IncrementLikes_views st ip slug s, IncrementViews_likes st ip slug s⟩

/-! ## The dedup-count invariant (C2) -/

/-- Number of distinct identities holding a dedup record for a slug. -/
def dedupCount (S : Finset (String × String)) (slug : String) : Nat :=
  ((S.filter (fun p => p.2 = slug)).image Prod.fst).card

theorem dedupCount_eq_card_filter (S : Finset (String × String)) (slug : String) :
    dedupCount S slug = (S.filter (fun p => p.2 = slug)).card := by
  unfold dedupCount
  apply Finset.card_image_of_injOn
  intro p hp q hq hpq
  simp only [Finset.coe_filter, Set.mem_setOf_eq] at hp hq
  exact Prod.ext hpq (hp.2.trans hq.2.symm)

theorem dedupCount_insert_self (S : Finset (String × String)) (ip slug : String)
    (h : (ip, slug) ∉ S) :
    dedupCount (insert (ip, slug) S) slug = dedupCount S slug + 1 := by
  rw [dedupCount_eq_card_filter, dedupCount_eq_card_filter, Finset.filter_insert]
  rw [if_pos rfl]
  rw [Finset.card_insert_of_not_mem]
  intro hmem
  exact h (Finset.mem_of_mem_filter _ hmem)

theorem dedupCount_insert_other (S : Finset (String × String)) (ip slug s : String)
    (hs : s ≠ slug) :
    dedupCount (insert (ip, slug) S) s = dedupCount S s := by
  rw [dedupCount_eq_card_filter, dedupCount_eq_card_filter, Finset.filter_insert]
  rw [if_neg (fun hh => hs hh.symm)]

/-- Claim C2: in every state reachable from the empty store by GetStats,
IncrementViews and IncrementLikes calls, the views counter of every slug
equals the number of distinct identities with a view-dedup record for
that slug, and likewise for likes over the like-dedup set. -/
theorem counters_equal_dedup_counts : ∀ st : DBState, Reachable st →
    ∀ slug : String,
      viewsOf st slug = dedupCount st.ip_views slug ∧
      likesOf st slug = dedupCount st.ip_likes slug := by
  intro st h
  induction h with
  | empty =>
    intro slug
    constructor <;> simp [emptyDB, viewsOf, likesOf, dedupCount]
  | getStats st slug0 _ ih =>
    intro slug
    rw [GetStats_views, GetStats_likes, GetStats_ip_views, GetStats_ip_likes]
    exact ih slug
  | incViews st ip slug0 _ ih =>
    intro slug
    rw [IncrementViews_views, IncrementViews_likes, IncrementViews_ip_views,
      IncrementViews_ip_likes]
    by_cases hm : (ip, slug0) ∈ st.ip_views
    · rw [viewTxUnit_of_mem st ip slug0 hm, Finset.insert_eq_self.mpr hm]
      exact ih slug
    · by_cases hs : slug = slug0
      · subst hs
        rw [viewTxUnit_views_self st ip slug hm, dedupCount_insert_self st.ip_views ip slug hm]
        exact ⟨by rw [(ih slug).1], (ih slug).2⟩
      · rw [viewTxUnit_views_other st ip slug0 slug hs,
          dedupCount_insert_other st.ip_views ip slug0 slug hs]
        exact ih slug
  | incLikes st ip slug0 _ ih =>
    intro slug
    rw [IncrementLikes_likes, IncrementLikes_views, IncrementLikes_ip_views,
      IncrementLikes_ip_likes]
    by_cases hm : (ip, slug0) ∈ st.ip_likes
    · rw [likeTxUnit_of_mem st ip slug0 hm, Finset.insert_eq_self.mpr hm]
      exact ih slug
    · by_cases hs : slug = slug0
      · subst hs
        rw [likeTxUnit_likes_self st ip slug hm, dedupCount_insert_self st.ip_likes ip slug hm]
        exact ⟨(ih slug).1, by rw [(ih slug).2]⟩
      · rw [likeTxUnit_likes_other st ip slug0 slug hs,
          dedupCount_insert_other st.ip_likes ip slug0 slug hs]
        exact ih slug

/-- Witness for C2: the invariant evaluated in the concrete state
reached by one fresh IncrementViews from the empty store. -/
theorem counters_equal_dedup_counts_witness :
    viewsOf (IncrementViews emptyDB ("198.51.100.9") ("go-sqlite")).1 ("go-sqlite") =
      dedupCount (IncrementViews emptyDB ("198.51.100.9") ("go-sqlite")).1.ip_views
        ("go-sqlite") :=
  (counters_equal_dedup_counts _
    (Reachable.incViews emptyDB ("198.51.100.9") ("go-sqlite") Reachable.empty)
    ("go-sqlite")).1

/-! ## GetStats totality (C4) -/

/-- Claim C4: GetStats never fails because a slug has no row: without a
storage failure it returns the current counters, on a never-seen slug it
returns zeroed stats and its only side effect is the creation of the
zeroed row, and an error outcome implies a storage-layer failure. -/
theorem getStats_total : ∀ (fail : Bool) (st : DBState) (slug : String),
    ((GetStatsF false st slug).2 =
       .ok { slug := slug, likes := likesOf st slug, views := viewsOf st slug }) ∧
    (st.post_stats slug = none →
       (GetStatsF false st slug).2 = .ok { slug := slug, likes := 0, views := 0 } ∧
       (GetStatsF false st slug).1.post_stats slug = some (0, 0) ∧
       (∀ s, s ≠ slug → (GetStatsF false st slug).1.post_stats s = st.post_stats s) ∧
       (GetStatsF false st slug).1.ip_views = st.ip_views ∧
       (GetStatsF false st slug).1.ip_likes = st.ip_likes) ∧
    (∀ e : Unit, (GetStatsF fail st slug).2 = .error e → fail = true) := by
  intro fail st slug
  refine ⟨?_, fun h => ?_, fun e he => ?_⟩
  · simp [GetStatsF, GetStats_snd]
  · refine ⟨?_, ?_, fun s hs => ?_, ?_, ?_⟩
    · simp [GetStatsF, GetStats_snd, viewsOf, likesOf, h]
    · simp [GetStatsF, GetStats, h]
    · simp [GetStatsF, GetStats, h, hs]
    · simp [GetStatsF, GetStats_ip_views]
    · simp [GetStatsF, GetStats_ip_likes]
  · cases fail with
    | true => rfl
    | false => simp [GetStatsF] at he

/-- Witness for C4: a never-seen slug in the empty store yields zeroed
stats without an error. -/
theorem getStats_total_witness :
    (GetStatsF false emptyDB ("fresh-slug")).2 =
      .ok { slug := "fresh-slug", likes := 0, views := 0 } :=
  ((getStats_total false emptyDB ("fresh-slug")).2.1 rfl).1

/-! ## Storage-failure atomicity (C3) -/

theorem IncrementViewsF_noFail (st : DBState) (ip slug : String) :
    IncrementViewsF noFail st ip slug =
      ((IncrementViews st ip slug).1, .ok (IncrementViews st ip slug).2) := by
  simp [IncrementViewsF, noFail, IncrementViews]

theorem IncrementLikesF_noFail (st : DBState) (ip slug : String) :
    IncrementLikesF noFail st ip slug =
      ((IncrementLikes st ip slug).1, .ok (IncrementLikes st ip slug).2) := by
  simp [IncrementLikesF, noFail, IncrementLikes]

theorem viewTxUnit_idem (st : DBState) (ip slug : String) :
    viewTxUnit (viewTxUnit st ip slug) ip slug = viewTxUnit st ip slug := by
  apply viewTxUnit_of_mem
  rw [viewTxUnit_ip_views]
  exact Finset.mem_insert_self _ _

theorem likeTxUnit_idem (st : DBState) (ip slug : String) :
    likeTxUnit (likeTxUnit st ip slug) ip slug = likeTxUnit st ip slug := by
  apply likeTxUnit_of_mem
  rw [likeTxUnit_ip_likes]
  exact Finset.mem_insert_self _ _

theorem IncrementViewsF_cases (fs : FailSpec) (st : DBState) (ip slug : String) :
    IncrementViewsF fs st ip slug = (st, .error ()) ∨
    (IncrementViewsF fs st ip slug = (viewTxUnit st ip slug, .error ()) ∧
      fs.atReadBack = true) ∨
    IncrementViewsF fs st ip slug =
      ((IncrementViews st ip slug).1, .ok (IncrementViews st ip slug).2) := by
  by_cases h1 : fs.atBegin
  · exact Or.inl (by simp [IncrementViewsF, h1])
  by_cases h2 : fs.atDedupInsert
  · exact Or.inl (by simp [IncrementViewsF, h1, h2])
  by_cases h3 : fs.atRowsAffected
  · exact Or.inl (by simp [IncrementViewsF, h1, h2, h3])
  by_cases h4 : (ip, slug) ∉ st.ip_views ∧ fs.atCounterUpdate = true
  · exact Or.inl (by simp [IncrementViewsF, h1, h2, h3, h4])
  by_cases h5 : fs.atCommit
  · exact Or.inl (by simp [IncrementViewsF, h1, h2, h3, h4, h5])
  by_cases h6 : fs.atReadBack
  · exact Or.inr (Or.inl ⟨by simp [IncrementViewsF, h1, h2, h3, h4, h5, h6], h6⟩)
  · exact Or.inr (Or.inr (by simp [IncrementViewsF, h1, h2, h3, h4, h5, h6, IncrementViews]))

theorem IncrementLikesF_cases (fs : FailSpec) (st : DBState) (ip slug : String) :
    IncrementLikesF fs st ip slug = (st, .error ()) ∨
    (IncrementLikesF fs st ip slug = (likeTxUnit st ip slug, .error ()) ∧
      fs.atReadBack = true) ∨
    IncrementLikesF fs st ip slug =
      ((IncrementLikes st ip slug).1, .ok (IncrementLikes st ip slug).2) := by
  by_cases h1 : fs.atBegin
  · exact Or.inl (by simp [IncrementLikesF, h1])
  by_cases h2 : fs.atDedupInsert
  · exact Or.inl (by simp [IncrementLikesF, h1, h2])
  by_cases h3 : fs.atRowsAffected
  · exact Or.inl (by simp [IncrementLikesF, h1, h2, h3])
  by_cases h4 : (ip, slug) ∉ st.ip_likes ∧ fs.atCounterUpdate = true
  · exact Or.inl (by simp [IncrementLikesF, h1, h2, h3, h4])
  by_cases h5 : fs.atCommit
  · exact Or.inl (by simp [IncrementLikesF, h1, h2, h3, h4, h5])
  by_cases h6 : fs.atReadBack
  · exact Or.inr (Or.inl ⟨by simp [IncrementLikesF, h1, h2, h3, h4, h5, h6], h6⟩)
  · exact Or.inr (Or.inr (by simp [IncrementLikesF, h1, h2, h3, h4, h5, h6, IncrementLikes]))

deriving instance DecidableEq for Except

/-- The storage-failure schedule failing only at the post-commit
read-back. -/
def failAtReadBack : FailSpec :=
  { atBegin := false, atDedupInsert := false, atRowsAffected := false,
    atCounterUpdate := false, atCommit := false, atReadBack := true }

/-- The storage-failure schedule failing only at Commit. -/
def failAtCommit : FailSpec :=
  { atBegin := false, atDedupInsert := false, atRowsAffected := false,
    atCounterUpdate := false, atCommit := true, atReadBack := false }

/-- Counterexample to C3 as stated: when the storage failure hits the
post-commit GetStats read-back, the call reports a failure even though
the dedup record and the counter increment both persisted, so the store
is not left unchanged. -/
theorem increment_failure_not_always_unchanged :
    (IncrementViewsF failAtReadBack emptyDB ("203.0.113.7") ("go-sqlite")).2 = .error () ∧
    viewsOf (IncrementViewsF failAtReadBack emptyDB ("203.0.113.7") ("go-sqlite")).1
      ("go-sqlite") = 1 ∧
    viewsOf emptyDB ("go-sqlite") = 0 ∧
    ((("203.0.113.7" : String), ("go-sqlite" : String)) ∈
      (IncrementViewsF failAtReadBack emptyDB ("203.0.113.7") ("go-sqlite")).1.ip_views) ∧
    ((("203.0.113.7" : String), ("go-sqlite" : String)) ∉ emptyDB.ip_views) := by
  refine ⟨?_, ?_, ?_, ?_, ?_⟩ <;> decide

/-- Claim C3 as amended: an increment that reports a storage failure has
either no effect at all or (only when the failure hits the post-commit
read-back) exactly the whole atomic unit persisted — never a partial
effect; every failure at a transactional call site (begin, dedup insert,
rows-affected, counter update, commit) leaves the store unchanged; and
after any failed call a retry yields the same counter as a single
successful call, so retrying is safe. -/
theorem increment_failure_atomic : ∀ (fs : FailSpec) (st : DBState) (ip slug : String),
    ((IncrementViewsF fs st ip slug).2 = .error () →
       ((IncrementViewsF fs st ip slug).1 = st ∨
        (IncrementViewsF fs st ip slug).1 = viewTxUnit st ip slug) ∧
       (fs.atReadBack = false → (IncrementViewsF fs st ip slug).1 = st) ∧
       (∀ s, viewsOf (IncrementViewsF noFail (IncrementViewsF fs st ip slug).1 ip slug).1 s =
             viewsOf (IncrementViews st ip slug).1 s)) ∧
    ((IncrementLikesF fs st ip slug).2 = .error () →
       ((IncrementLikesF fs st ip slug).1 = st ∨
        (IncrementLikesF fs st ip slug).1 = likeTxUnit st ip slug) ∧
       (fs.atReadBack = false → (IncrementLikesF fs st ip slug).1 = st) ∧
       (∀ s, likesOf (IncrementLikesF noFail (IncrementLikesF fs st ip slug).1 ip slug).1 s =
             likesOf (IncrementLikes st ip slug).1 s)) := by
  intro fs st ip slug
  constructor
  · intro herr
    rcases IncrementViewsF_cases fs st ip slug with hc | ⟨hc, hrb⟩ | hc
    · rw [hc]
      refine ⟨Or.inl rfl, fun _ => rfl, fun s => ?_⟩
      rw [IncrementViewsF_noFail]
    · rw [hc]
      refine ⟨Or.inr rfl, fun hf => absurd hrb (by simp [hf]), fun s => ?_⟩
      rw [IncrementViewsF_noFail]
      rw [IncrementViews_views, IncrementViews_views, viewTxUnit_idem]
    · rw [hc] at herr
      simp at herr
  · intro herr
    rcases IncrementLikesF_cases fs st ip slug with hc | ⟨hc, hrb⟩ | hc
    · rw [hc]
      refine ⟨Or.inl rfl, fun _ => rfl, fun s => ?_⟩
      rw [IncrementLikesF_noFail]
    · rw [hc]
      refine ⟨Or.inr rfl, fun hf => absurd hrb (by simp [hf]), fun s => ?_⟩
      rw [IncrementLikesF_noFail]
      rw [IncrementLikes_likes, IncrementLikes_likes, likeTxUnit_idem]
    · rw [hc] at herr
      simp at herr

/-- Witness for the amended C3: a commit failure on a fresh increment
reports an error and leaves the store unchanged. -/
theorem increment_failure_atomic_witness :
    (IncrementViewsF failAtCommit emptyDB ("203.0.113.8") ("go-sqlite")).2 = .error () ∧
    (IncrementViewsF failAtCommit emptyDB ("203.0.113.8") ("go-sqlite")).1 = emptyDB :=
  ⟨by decide,
   ((increment_failure_atomic failAtCommit emptyDB ("203.0.113.8") ("go-sqlite")).1
      (by decide)).2.1 rfl⟩

/-! ## Slug validation (C7) -/

theorem not_valid_of_bad (slug : String)
    (h : slug = "" ∨ 100 ≤ slug.utf8ByteSize ∨ ∃ c ∈ slug.data, slugChar c = false) :
    ¬ isValidSlug slug := by
  intro hv
  obtain ⟨h1, h2, h3⟩ := hv
  rcases h with h | h | ⟨c, hc, hbad⟩
  · rw [h] at h1
    simp [String.utf8ByteSize] at h1
  · omega
  · rw [List.all_eq_true] at h3
    rw [h3 c hc] at hbad
    exact Bool.true_eq_false.mp hbad

/-- Claim C7: a request whose slug is empty, at least 100 bytes long, or
contains a character outside lowercase letters, digits and hyphen is
rejected by the view, like and stats handlers with a validation error,
with the store left unchanged (no ledger operation runs). -/
theorem invalid_slug_rejected : ∀ (r : Request) (st : DBState),
    (r.slug = "" ∨ 100 ≤ r.slug.utf8ByteSize ∨ ∃ c ∈ r.slug.data, slugChar c = false) →
    HandleView r st = (st, .badRequest ("invalid slug format")) ∧
    HandleLike r st = (st, .badRequest ("invalid slug format")) ∧
    HandleGetStats r st = (st, .badRequest ("invalid slug format")) := by
  intro r st h
  have hv := not_valid_of_bad r.slug h
  exact ⟨by simp [HandleView, hv], by simp [HandleLike, hv], by simp [HandleGetStats, hv]⟩

/-- Witness for C7: the empty slug is rejected by HandleView with the
store unchanged. -/
theorem invalid_slug_rejected_witness :
    HandleView { slug := "", xForwardedFor := "", xRealIP := "", remoteAddr := "1.2.3.4" }
      emptyDB = (emptyDB, .badRequest ("invalid slug format")) :=
  (invalid_slug_rejected
    { slug := "", xForwardedFor := "", xRealIP := "", remoteAddr := "1.2.3.4" }
    emptyDB (Or.inl rfl)).1

/-! ## Backup scheduler (C8) -/

/-- The upload performed by one event: a tick uploads the file content
(if the file opened), cancellation uploads nothing. -/
def tickUpload : SchedEvent → Option UploadCall
  | .tick c _ => performBackup c
  | .cancel => none

/-- Claim C8: the scheduler performs exactly one upload call per tick
before the first cancellation, each carrying the storage file's full
byte content under the fixed destination key, regardless of earlier
upload failures (a failed upload never stops the loop, the next tick
uploads again); the cancellation signal stops the loop. -/
theorem scheduler_one_upload_per_tick : ∀ evs : List SchedEvent,
    runScheduler evs =
      ((evs.takeWhile (fun e => !e.isCancel)).filterMap tickUpload,
       evs.any SchedEvent.isCancel) ∧
    (∀ (c : List Nat) (ok : Bool) (rest : List SchedEvent),
       runScheduler (SchedEvent.tick (some c) ok :: rest) =
         ({ key := backupObjectKey, body := c } :: (runScheduler rest).1,
          (runScheduler rest).2)) ∧
    (∀ rest : List SchedEvent, runScheduler (SchedEvent.cancel :: rest) = ([], true)) := by
  intro evs
  refine ⟨?_, fun c ok rest => ?_, fun rest => ?_⟩
  · induction evs with
    | nil => simp [runScheduler]
    | cons e rest ih =>
      cases e with
      | cancel => simp [runScheduler, SchedEvent.isCancel]
      | tick c ok =>
        cases c with
        | none =>
          simp [runScheduler, SchedEvent.isCancel, List.takeWhile_cons, List.filterMap_cons,
            tickUpload, performBackup, ih]
        | some b =>
          simp [runScheduler, SchedEvent.isCancel, List.takeWhile_cons, List.filterMap_cons,
            tickUpload, performBackup, ih]
  · simp [runScheduler, performBackup]
  · simp [runScheduler]

/-! ## Identity precedence (C10) -/

/-- Claim C10: identity derivation has three levels: a present
X-Forwarded-For header wins and its first comma-separated entry is
trimmed and normalized; otherwise a present X-Real-IP header is
normalized; only when both headers are absent is the direct connection
address normalized. -/
theorem client_ip_precedence : ∀ r : Request,
    (r.xForwardedFor ≠ "" →
       GetClientIP r =
         NormalizeIP (String.mk (trimSpace ((splitOnChar ',' r.xForwardedFor.data).headD [])))) ∧
    (r.xForwardedFor = "" → r.xRealIP ≠ "" → GetClientIP r = NormalizeIP r.xRealIP) ∧
    (r.xForwardedFor = "" → r.xRealIP = "" → GetClientIP r = NormalizeIP r.remoteAddr) := by
  intro r
  refine ⟨fun h => ?_, fun h1 h2 => ?_, fun h1 h2 => ?_⟩ <;> simp [GetClientIP, *]

/-- Witness for C10: the three precedence levels at concrete requests. -/
theorem client_ip_precedence_witness :
    GetClientIP ⟨"s", "203.0.113.9, 10.0.0.1", "198.51.100.1", "192.0.2.9:443"⟩ =
      NormalizeIP (String.mk (trimSpace
        ((splitOnChar ',' ("203.0.113.9, 10.0.0.1" : String).data).headD []))) ∧
    GetClientIP ⟨"s", "", "198.51.100.1", "192.0.2.9:443"⟩ = NormalizeIP ("198.51.100.1") ∧
    GetClientIP ⟨"s", "", "", "192.0.2.9:443"⟩ = NormalizeIP ("192.0.2.9:443") :=
  ⟨(client_ip_precedence _).1 (by decide),
   (client_ip_precedence _).2.1 rfl (by decide),
   (client_ip_precedence _).2.2 rfl rfl⟩

/-! ## Lemmas about the IPv4 grammar and its printing round trip -/

theorem splitOnChar_ne_nil (sep : Char) (s : List Char) : splitOnChar sep s ≠ [] := by
  cases s with
  | nil => simp [splitOnChar]
  | cons c cs =>
    unfold splitOnChar
    by_cases h : c = sep
    · simp [h]
    · rw [if_neg h]
      cases hs : splitOnChar sep cs <;> simp

/-- Rejoining the fields of splitOnChar with the separator. -/
def joinSep (sep : Char) : List (List Char) → List Char
  | [] => []
  | [f] => f
  | f :: fs => f ++ sep :: joinSep sep fs

theorem joinSep_single (sep : Char) (f : List Char) : joinSep sep [f] = f := rfl

theorem joinSep_pair (sep : Char) (f g : List Char) (gs : List (List Char)) :
    joinSep sep (f :: g :: gs) = f ++ sep :: joinSep sep (g :: gs) := rfl

theorem joinSep_splitOnChar (sep : Char) (s : List Char) :
    joinSep sep (splitOnChar sep s) = s := by
  induction s with
  | nil => rfl
  | cons c cs ih =>
    unfold splitOnChar
    by_cases h : c = sep
    · rw [if_pos h]
      cases hs : splitOnChar sep cs with
      | nil => exact absurd hs (splitOnChar_ne_nil sep cs)
      | cons f rest =>
        rw [hs] at ih
        rw [joinSep_pair, List.nil_append, ih, h]
    · rw [if_neg h]
      cases hs : splitOnChar sep cs with
      | nil => exact absurd hs (splitOnChar_ne_nil sep cs)
      | cons f rest =>
        rw [hs] at ih
        cases rest with
        | nil =>
          rw [joinSep_single]
          rw [joinSep_single] at ih
          rw [ih]
        | cons g gs =>
          rw [joinSep_pair, List.cons_append]
          rw [joinSep_pair] at ih
          rw [ih]

theorem mem_joinSep (sep : Char) (fs : List (List Char)) (c : Char)
    (hc : c ∈ joinSep sep fs) : c = sep ∨ ∃ f ∈ fs, c ∈ f := by
  induction fs with
  | nil => simp [joinSep] at hc
  | cons f fs ih =>
    cases fs with
    | nil =>
      rw [joinSep_single] at hc
      exact Or.inr ⟨f, by simp, hc⟩
    | cons g gs =>
      rw [joinSep_pair] at hc
      rcases List.mem_append.mp hc with hf | hrest
      · exact Or.inr ⟨f, by simp, hf⟩
      · rcases List.mem_cons.mp hrest with hsep | hrec
        · exact Or.inl hsep
        · rcases ih hrec with hl | ⟨g', hg', hcg'⟩
          · exact Or.inl hl
          · exact Or.inr ⟨g', List.mem_cons_of_mem f hg', hcg'⟩

theorem isDec_spec (c : Char) (h : isDec c = true) : 48 ≤ c.toNat ∧ c.toNat ≤ 57 := by
  unfold isDec at h
  simp only [Bool.and_eq_true, decide_eq_true_eq] at h
  exact h

theorem ofNat_digit (c : Char) (h : isDec c = true) : Char.ofNat (48 + digitVal c) = c := by
  have hs := isDec_spec c h
  have h48 : 48 + digitVal c = c.toNat := by unfold digitVal; omega
  rw [h48, Char.ofNat_toNat]

theorem toNat_eq_48_iff (c : Char) (h : c.toNat = 48) : c = '0' := by
  rw [← Char.ofNat_toNat c, h]

theorem fieldOk_spec (f : List Char) (h : fieldOk f = true) :
    f ≠ [] ∧ (∀ c ∈ f, isDec c = true) ∧ (f.length = 1 ∨ f.headD ' ' ≠ '0') ∧
      decVal f ≤ 255 := by
  unfold fieldOk at h
  simp only [Bool.and_eq_true, Bool.or_eq_true, beq_iff_eq, Bool.not_eq_true',
    beq_eq_false_iff_ne, ne_eq, List.all_eq_true, decide_eq_true_eq] at h
  refine ⟨?_, h.1.1.2, ?_, h.2⟩
  · intro he
    rw [he] at h
    simp at h
  · rcases h.1.2 with hl | hl
    · exact Or.inl hl
    · exact Or.inr hl

theorem decValAux_nil (a : Nat) : decValAux [] a = a := rfl

theorem decValAux_cons (a : Nat) (c : Char) (cs : List Char) :
    decValAux (c :: cs) a = decValAux cs (a * 10 + digitVal c) := rfl

theorem decVal_cons (c : Char) (cs : List Char) :
    decVal (c :: cs) = decValAux cs (digitVal c) := by
  unfold decVal
  rw [decValAux_cons]
  congr 1
  omega

theorem decValAux_ge (cs : List Char) : ∀ a : Nat, a * 10 ^ cs.length ≤ decValAux cs a := by
  induction cs with
  | nil => intro a; simp [decValAux]
  | cons c cs ih =>
    intro a
    calc a * 10 ^ (c :: cs).length = (a * 10) * 10 ^ cs.length := by
          simp [List.length_cons]; ring
    _ ≤ (a * 10 + digitVal c) * 10 ^ cs.length := Nat.mul_le_mul_right _ (by omega)
    _ ≤ decValAux cs (a * 10 + digitVal c) := ih _
    _ = decValAux (c :: cs) a := rfl

theorem digitVal_le (c : Char) (h : isDec c = true) : digitVal c ≤ 9 := by
  have hs := isDec_spec c h
  unfold digitVal
  omega

theorem digitVal_pos (c : Char) (h : isDec c = true) (hz : c ≠ '0') : 1 ≤ digitVal c := by
  have hs := isDec_spec c h
  have : c.toNat ≠ 48 := fun he => hz (toNat_eq_48_iff c he)
  unfold digitVal
  omega

theorem decByte_decVal (f : List Char) (hok : fieldOk f = true) : decByte (decVal f) = f := by
  obtain ⟨hne, hdig, hlz, hle⟩ := fieldOk_spec f hok
  match f with
  | [] => exact absurd rfl hne
  | [c1] =>
    have h1 := hdig c1 (by simp)
    have hv1 := digitVal_le c1 h1
    rw [decVal_cons, decValAux_nil]
    unfold decByte
    rw [if_pos (by omega)]
    rw [ofNat_digit c1 h1]
  | [c1, c2] =>
    have h1 := hdig c1 (by simp)
    have h2 := hdig c2 (by simp)
    have hv1 := digitVal_le c1 h1
    have hv2 := digitVal_le c2 h2
    have hz : c1 ≠ '0' := by
      rcases hlz with hl | hl
      · simp at hl
      · simpa using hl
    have hp1 := digitVal_pos c1 h1 hz
    have hval : decVal [c1, c2] = 10 * digitVal c1 + digitVal c2 := by
      have he : decVal [c1, c2] = (0 * 10 + digitVal c1) * 10 + digitVal c2 := rfl
      omega
    rw [hval]
    unfold decByte
    rw [if_neg (by omega), if_pos (by omega)]
    have e1 : (10 * digitVal c1 + digitVal c2) / 10 = digitVal c1 := by omega
    have e2 : (10 * digitVal c1 + digitVal c2) % 10 = digitVal c2 := by omega
    rw [e1, e2, ofNat_digit c1 h1, ofNat_digit c2 h2]
  | c1 :: c2 :: c3 :: rest =>
    have h1 := hdig c1 (by simp)
    have hz : c1 ≠ '0' := by
      rcases hlz with hl | hl
      · simp at hl
      · simpa using hl
    have hp1 := digitVal_pos c1 h1 hz
    cases rest with
    | nil =>
      have h2 := hdig c2 (by simp)
      have h3 := hdig c3 (by simp)
      have hv1 := digitVal_le c1 h1
      have hv2 := digitVal_le c2 h2
      have hv3 := digitVal_le c3 h3
      have hval : decVal [c1, c2, c3] =
          100 * digitVal c1 + 10 * digitVal c2 + digitVal c3 := by
        have he : decVal [c1, c2, c3] =
            ((0 * 10 + digitVal c1) * 10 + digitVal c2) * 10 + digitVal c3 := rfl
        omega
      rw [hval] at hle ⊢
      unfold decByte
      rw [if_neg (by omega), if_neg (by omega)]
      have e1 : (100 * digitVal c1 + 10 * digitVal c2 + digitVal c3) / 100 = digitVal c1 := by
        omega
      have e2 : (100 * digitVal c1 + 10 * digitVal c2 + digitVal c3) / 10 % 10 =
          digitVal c2 := by omega
      have e3 : (100 * digitVal c1 + 10 * digitVal c2 + digitVal c3) % 10 = digitVal c3 := by
        omega
      rw [e1, e2, e3, ofNat_digit c1 h1, ofNat_digit c2 h2, ofNat_digit c3 h3]
    | cons c4 rest2 =>
      exfalso
      have hge := decValAux_ge (c2 :: c3 :: c4 :: rest2) (digitVal c1)
      rw [decVal_cons] at hle
      have hlen : 3 ≤ (c2 :: c3 :: c4 :: rest2).length := by simp
      have hpow : (10 : Nat) ^ 3 ≤ 10 ^ (c2 :: c3 :: c4 :: rest2).length :=
        Nat.pow_le_pow_right (by norm_num) hlen
      have : 1000 ≤ decValAux (c2 :: c3 :: c4 :: rest2) (digitVal c1) := by
        calc (1000 : Nat) = 1 * 10 ^ 3 := by norm_num
        _ ≤ digitVal c1 * 10 ^ (c2 :: c3 :: c4 :: rest2).length :=
            Nat.mul_le_mul hp1 hpow
        _ ≤ _ := hge
      omega

theorem joinSep_splitDots (s : List Char) : joinSep '.' (splitDots s) = s :=
  joinSep_splitOnChar '.' s

theorem parseV4_spec (s : List Char) (b : List Nat) (h : parseV4 s = some b) :
    ∃ f0 f1 f2 f3, splitDots s = [f0, f1, f2, f3] ∧
      fieldOk f0 = true ∧ fieldOk f1 = true ∧ fieldOk f2 = true ∧ fieldOk f3 = true ∧
      b = [decVal f0, decVal f1, decVal f2, decVal f3] := by
  unfold parseV4 at h
  cases hsp : splitDots s with
  | nil => rw [hsp] at h; simp at h
  | cons f0 t0 =>
  cases t0 with
  | nil => rw [hsp] at h; simp at h
  | cons f1 t1 =>
  cases t1 with
  | nil => rw [hsp] at h; simp at h
  | cons f2 t2 =>
  cases t2 with
  | nil => rw [hsp] at h; simp at h
  | cons f3 t3 =>
  cases t3 with
  | cons f4 t4 => rw [hsp] at h; simp at h
  | nil =>
    rw [hsp] at h
    dsimp only [] at h
    by_cases hok : (fieldOk f0 && fieldOk f1 && fieldOk f2 && fieldOk f3) = true
    · rw [if_pos hok] at h
      simp only [Bool.and_eq_true] at hok
      exact ⟨f0, f1, f2, f3, rfl, hok.1.1.1, hok.1.1.2, hok.1.2, hok.2,
        (Option.some.inj h).symm⟩
    · rw [if_neg hok] at h
      simp at h

theorem v4Chars_parseV4 (s : List Char) (b : List Nat) (h : parseV4 s = some b) :
    v4Chars b = s := by
  obtain ⟨f0, f1, f2, f3, hsp, h0, h1, h2, h3, hb⟩ := parseV4_spec s b h
  rw [hb]
  simp only [v4Chars]
  rw [decByte_decVal f0 h0, decByte_decVal f1 h1, decByte_decVal f2 h2,
    decByte_decVal f3 h3]
  have hj := joinSep_splitDots s
  rw [hsp, joinSep_pair, joinSep_pair, joinSep_pair, joinSep_single] at hj
  rw [← hj]
  simp [List.append_assoc, List.cons_append]

theorem parseV4_chars (s : List Char) (b : List Nat) (h : parseV4 s = some b) :
    ∀ c ∈ s, isDec c = true ∨ c = '.' := by
  obtain ⟨f0, f1, f2, f3, hsp, h0, h1, h2, h3, _⟩ := parseV4_spec s b h
  intro c hc
  have hj := joinSep_splitDots s
  rw [hsp] at hj
  rw [← hj] at hc
  rcases mem_joinSep '.' _ c hc with hdot | ⟨f, hf, hcf⟩
  · exact Or.inr hdot
  · left
    have hfok : fieldOk f = true := by
      rcases List.mem_cons.mp hf with rfl | hf
      · exact h0
      rcases List.mem_cons.mp hf with rfl | hf
      · exact h1
      rcases List.mem_cons.mp hf with rfl | hf
      · exact h2
      rcases List.mem_cons.mp hf with rfl | hf
      · exact h3
      · simp at hf
    exact (fieldOk_spec f hfok).2.1 c hcf

theorem parseV4_no_colon (s : List Char) (b : List Nat) (h : parseV4 s = some b) :
    ':' ∉ s := by
  intro hc
  rcases parseV4_chars s b h ':' hc with hd | hd
  · exact absurd hd (by decide)
  · exact absurd hd (by decide)

theorem parseV4_bytes (s : List Char) (b : List Nat) (h : parseV4 s = some b) :
    b.length = 4 ∧ ∀ x ∈ b, x < 256 := by
  obtain ⟨f0, f1, f2, f3, _, h0, h1, h2, h3, hb⟩ := parseV4_spec s b h
  subst hb
  refine ⟨rfl, fun x hx => ?_⟩
  have l0 := (fieldOk_spec f0 h0).2.2.2
  have l1 := (fieldOk_spec f1 h1).2.2.2
  have l2 := (fieldOk_spec f2 h2).2.2.2
  have l3 := (fieldOk_spec f3 h3).2.2.2
  rcases List.mem_cons.mp hx with rfl | hx
  · omega
  rcases List.mem_cons.mp hx with rfl | hx
  · omega
  rcases List.mem_cons.mp hx with rfl | hx
  · omega
  rcases List.mem_cons.mp hx with rfl | hx
  · omega
  · simp at hx

/-! ## Lemmas about SplitHostPort on parseable addresses -/

theorem lastIdx_eq_none_iff (s : List Char) (c : Char) : lastIdx s c = none ↔ c ∉ s := by
  induction s with
  | nil => simp [lastIdx]
  | cons a rest ih =>
    unfold lastIdx
    cases hr : lastIdx rest c with
    | some j =>
      have hmem : c ∈ rest := by
        by_contra hn
        rw [ih.mpr hn] at hr
        exact Option.noConfusion hr
      simp [hmem]
    | none =>
      have hnmem : c ∉ rest := ih.mp hr
      by_cases ha : a = c
      · simp [ha]
      · simp only [ha, if_false, List.mem_cons, not_or]
        constructor
        · intro _
          exact ⟨fun he => ha he.symm, hnmem⟩
        · intro _
          trivial

theorem mem_take_lastIdx (s : List Char) (c : Char) :
    ∀ i, lastIdx s c = some i → 2 ≤ s.count c → c ∈ s.take i := by
  induction s with
  | nil => intro i hi _; simp [lastIdx] at hi
  | cons a rest ih =>
    intro i hi hcount
    unfold lastIdx at hi
    cases hr : lastIdx rest c with
    | some j =>
      rw [hr] at hi
      dsimp at hi
      have hij : i = j + 1 := (Option.some.inj hi).symm
      subst hij
      rw [List.take_succ_cons]
      by_cases hac : a = c
      · exact hac ▸ List.mem_cons_self a (rest.take j)
      · have hcr : 2 ≤ rest.count c := by
          rw [List.count_cons] at hcount
          simp only [beq_iff_eq, hac, if_false] at hcount
          omega
        exact List.mem_cons_of_mem a (ih j hr hcr)
    | none =>
      rw [hr] at hi
      dsimp at hi
      by_cases hac : a = c
      · exfalso
        have hnr : c ∉ rest := (lastIdx_eq_none_iff rest c).mp hr
        have hz : rest.count c = 0 := List.count_eq_zero.mpr hnr
        rw [List.count_cons, hz] at hcount
        simp only [beq_iff_eq, hac, if_true] at hcount
        omega
      · rw [if_neg hac] at hi
        exact Option.noConfusion hi

theorem splitHostPort_none_of_no_colon (s : List Char) (h : ':' ∉ s) :
    splitHostPort s = none := by
  unfold splitHostPort
  rw [(lastIdx_eq_none_iff s ':').mpr h]

theorem splitHostPort_none_of_colons (s : List Char) (hc : 2 ≤ s.count ':')
    (hh : s.headD ' ' ≠ '[') : splitHostPort s = none := by
  unfold splitHostPort
  cases hi : lastIdx s ':' with
  | none => rfl
  | some i =>
    dsimp only
    rw [if_neg hh]
    have hmem := mem_take_lastIdx s ':' i hi hc
    rw [if_pos (List.elem_iff.mpr hmem)]

/-! ## Lemmas about the IPv6 loop -/

theorem takeWhile_head (p : Char → Bool) (s : List Char)
    (h : (s.takeWhile p).length ≠ 0) : ∃ c cs, s = c :: cs ∧ p c = true := by
  cases s with
  | nil => simp [List.takeWhile] at h
  | cons c cs =>
    by_cases hp : p c
    · exact ⟨c, cs, rfl, hp⟩
    · rw [List.takeWhile_cons] at h
      simp [hp] at h

theorem count_colon_split (s : List Char) :
    s.count ':' = (s.takeWhile isHex).count ':' + (s.dropWhile isHex).count ':' := by
  conv_lhs => rw [← List.takeWhile_append_dropWhile isHex s]
  rw [List.count_append]

theorem v6Loop_colons : ∀ (fuel : Nat) (s : List Char) (i : Nat) (bytes : List Nat)
    (b : List Nat), v6Expand (v6Loop fuel s i none bytes) = some b →
    min 2 ((12 - i) / 2) ≤ s.count ':' := by
  intro fuel
  induction fuel with
  | zero =>
    intro s i bytes b h
    simp [v6Loop, v6Expand] at h
  | succ fuel ih =>
    intro s i bytes b h
    unfold v6Loop at h
    by_cases h16 : 16 ≤ i
    · rw [if_pos h16] at h; simp [v6Expand] at h
    rw [if_neg h16] at h
    by_cases hoff : (s.takeWhile isHex).length = 0
    · rw [if_pos hoff] at h; simp [v6Expand] at h
    rw [if_neg hoff] at h
    by_cases hoff4 : 4 < (s.takeWhile isHex).length
    · rw [if_pos hoff4] at h; simp [v6Expand] at h
    rw [if_neg hoff4] at h
    split at h
    · -- embedded IPv4 after the group: only allowed at i = 12 here
      by_cases hi12 : i = 12
      · have hz : (12 - i) / 2 = 0 := by omega
        rw [hz]
        simp
      · rw [if_pos ⟨rfl, hi12⟩] at h
        simp [v6Expand] at h
    · -- end of string after the group
      simp only [v6Expand] at h
      by_cases hi2 : i + 2 < 16
      · rw [if_pos hi2] at h
        simp at h
      · have hz : (12 - i) / 2 = 0 := by omega
        rw [hz]
        simp
    · -- a colon follows the group
      rename_i rest2 heq
      split at h
      · simp [v6Expand] at h
      · -- a second colon: the ellipsis, two colons are in the input
        have hcs := count_colon_split s
        rw [heq] at hcs
        rw [List.count_cons, List.count_cons] at hcs
        simp only [beq_self_eq_true, if_true] at hcs
        have hmin : min 2 ((12 - i) / 2) ≤ 2 := min_le_left _ _
        omega
      · -- an ordinary separator: recurse with one colon consumed
        have hrec := ih rest2 (i + 2) _ b h
        have hcs := count_colon_split s
        rw [heq] at hcs
        rw [List.count_cons] at hcs
        simp only [beq_self_eq_true, if_true] at hcs
        omega
    · -- any other character after the group is an error
      simp [v6Expand] at h

theorem groupBytes_length (a : Nat) : (groupBytes a).length = 2 := rfl

theorem groupBytes_lt (a : Nat) : ∀ x ∈ groupBytes a, x < 256 := by
  intro x hx
  rcases List.mem_cons.mp hx with rfl | hx
  · omega
  rcases List.mem_cons.mp hx with rfl | hx
  · omega
  · simp at hx

theorem v6Loop_shape : ∀ (fuel : Nat) (s : List Char) (i : Nat) (ell : Option Nat)
    (bytes bytes' : List Nat) (ell' : Option Nat) (i' : Nat),
    v6Loop fuel s i ell bytes = some (bytes', ell', i') →
    bytes.length = i → i % 2 = 0 → (∀ e, ell = some e → e ≤ i) →
    (∀ x ∈ bytes, x < 256) →
    bytes'.length = i' ∧ i' ≤ 16 ∧ i' % 2 = 0 ∧ (∀ e, ell' = some e → e ≤ i') ∧
      (∀ x ∈ bytes', x < 256) := by
  intro fuel
  induction fuel with
  | zero =>
    intro s i ell bytes bytes' ell' i' h _ _ _ _
    simp [v6Loop] at h
  | succ fuel ih =>
    intro s i ell bytes bytes' ell' i' h hlen heven hell hlt
    unfold v6Loop at h
    by_cases h16 : 16 ≤ i
    · rw [if_pos h16] at h; simp at h
    rw [if_neg h16] at h
    by_cases hoff : (s.takeWhile isHex).length = 0
    · rw [if_pos hoff] at h; simp at h
    rw [if_neg hoff] at h
    by_cases hoff4 : 4 < (s.takeWhile isHex).length
    · rw [if_pos hoff4] at h; simp at h
    rw [if_neg hoff4] at h
    split at h
    · -- embedded IPv4
      by_cases hc : ell = none ∧ i ≠ 12
      · rw [if_pos hc] at h; simp at h
      rw [if_neg hc] at h
      by_cases h164 : 16 < i + 4
      · rw [if_pos h164] at h; simp at h
      rw [if_neg h164] at h
      cases hp4 : parseV4 s with
      | none => rw [hp4] at h; simp at h
      | some b4 =>
        rw [hp4] at h
        dsimp at h
        have h' := Option.some.inj h
        rw [Prod.mk.injEq, Prod.mk.injEq] at h'
        obtain ⟨ha, hb, hcq⟩ := h'
        subst ha; subst hb; subst hcq
        have hp := parseV4_bytes s b4 hp4
        refine ⟨?_, by omega, by omega, ?_, ?_⟩
        · rw [List.length_append, hlen, hp.1]
        · intro e hee
          have := hell e hee
          omega
        · intro x hx
          rcases List.mem_append.mp hx with hx | hx
          · exact hlt x hx
          · exact hp.2 x hx
    · -- end of input after a group
      have h' := Option.some.inj h
      rw [Prod.mk.injEq, Prod.mk.injEq] at h'
      obtain ⟨ha, hb, hcq⟩ := h'
      subst ha; subst hb; subst hcq
      refine ⟨?_, by omega, by omega, ?_, ?_⟩
      · rw [List.length_append, hlen, groupBytes_length]
      · intro e hee
        have := hell e hee
        omega
      · intro x hx
        rcases List.mem_append.mp hx with hx | hx
        · exact hlt x hx
        · exact groupBytes_lt _ x hx
    · -- a colon after the group
      split at h
      · simp at h
      · -- a second colon: ellipsis
        by_cases hsome : ell.isSome = true
        · rw [if_pos hsome] at h; simp at h
        rw [if_neg hsome] at h
        split at h
        · -- input ends right after the double colon
          have h' := Option.some.inj h
          rw [Prod.mk.injEq, Prod.mk.injEq] at h'
          obtain ⟨ha, hb, hcq⟩ := h'
          subst ha; subst hb; subst hcq
          refine ⟨?_, by omega, by omega, ?_, ?_⟩
          · rw [List.length_append, hlen, groupBytes_length]
          · intro e hee
            have := Option.some.inj hee
            omega
          · intro x hx
            rcases List.mem_append.mp hx with hx | hx
            · exact hlt x hx
            · exact groupBytes_lt _ x hx
        · -- recurse with the new ellipsis
          refine ih _ _ _ _ _ _ _ h ?_ (by omega) ?_ ?_
          · rw [List.length_append, hlen, groupBytes_length]
          · intro e hee
            have := Option.some.inj hee
            omega
          · intro x hx
            rcases List.mem_append.mp hx with hx | hx
            · exact hlt x hx
            · exact groupBytes_lt _ x hx
      · -- ordinary separator: recurse
        refine ih _ _ _ _ _ _ _ h ?_ (by omega) ?_ ?_
        · rw [List.length_append, hlen, groupBytes_length]
        · intro e hee
          have := hell e hee
          omega
        · intro x hx
          rcases List.mem_append.mp hx with hx | hx
          · exact hlt x hx
          · exact groupBytes_lt _ x hx
    · simp at h

theorem v6ExpandLoop_shape (fuel : Nat) (s : List Char) (i : Nat) (ell : Option Nat)
    (bytes : List Nat) (b : List Nat)
    (h : v6Expand (v6Loop fuel s i ell bytes) = some b)
    (hlen : bytes.length = i) (heven : i % 2 = 0) (hell : ∀ e, ell = some e → e ≤ i)
    (hlt : ∀ x ∈ bytes, x < 256) :
    b.length = 16 ∧ ∀ x ∈ b, x < 256 := by
  cases hl : v6Loop fuel s i ell bytes with
  | none => rw [hl] at h; simp [v6Expand] at h
  | some r =>
    obtain ⟨bytes', ell', i'⟩ := r
    obtain ⟨hb1, hb2, _, hb4, hb5⟩ :=
      v6Loop_shape fuel s i ell bytes bytes' ell' i' hl hlen heven hell hlt
    rw [hl] at h
    simp only [v6Expand] at h
    by_cases hi : i' < 16
    · rw [if_pos hi] at h
      cases ell' with
      | none => simp at h
      | some e =>
        dsimp at h
        have hb := Option.some.inj h
        subst hb
        have he : e ≤ i' := hb4 e rfl
        constructor
        · rw [List.length_append, List.length_append, List.length_take,
            List.length_replicate, List.length_drop, hb1]
          omega
        · intro x hx
          rcases List.mem_append.mp hx with hx | hx
          · rcases List.mem_append.mp hx with hx | hx
            · exact hb5 x (List.take_subset _ _ hx)
            · rw [List.eq_of_mem_replicate hx]; omega
          · exact hb5 x (List.drop_subset _ _ hx)
    · rw [if_neg hi] at h
      cases ell' with
      | some e => simp at h
      | none =>
        dsimp at h
        have hb := Option.some.inj h
        subst hb
        exact ⟨by omega, hb5⟩

theorem parseV6_shape (s : List Char) (b : List Nat) (h : parseV6 s = some b) :
    b.length = 16 ∧ ∀ x ∈ b, x < 256 := by
  unfold parseV6 at h
  by_cases hpc : s.contains '%'
  · rw [if_pos hpc] at h; simp at h
  rw [if_neg hpc] at h
  by_cases hcc : s.take 2 = [':', ':']
  · rw [if_pos hcc] at h
    by_cases hemp : s.drop 2 = []
    · rw [if_pos hemp] at h
      have hb := Option.some.inj h
      subst hb
      refine ⟨by simp, fun x hx => ?_⟩
      rw [List.eq_of_mem_replicate hx]
      omega
    · rw [if_neg hemp] at h
      exact v6ExpandLoop_shape _ _ _ _ _ _ h rfl rfl
        (fun e he => by rw [← Option.some.inj he]) (by simp)
  · rw [if_neg hcc] at h
    exact v6ExpandLoop_shape _ _ _ _ _ _ h rfl rfl
      (fun e he => Option.noConfusion he) (by simp)

theorem parseV6_colons (s : List Char) (b : List Nat) (h : parseV6 s = some b) :
    2 ≤ s.count ':' := by
  unfold parseV6 at h
  by_cases hpc : s.contains '%'
  · rw [if_pos hpc] at h; simp at h
  rw [if_neg hpc] at h
  by_cases hcc : s.take 2 = [':', ':']
  · have hs : ∃ rest, s = ':' :: ':' :: rest := by
      cases s with
      | nil => simp at hcc
      | cons a t =>
        cases t with
        | nil => simp at hcc
        | cons a2 t2 =>
          simp only [List.take_succ_cons, List.take, List.cons.injEq] at hcc
          exact ⟨t2, by rw [hcc.1, hcc.2.1]⟩
    obtain ⟨rest, rfl⟩ := hs
    rw [List.count_cons, List.count_cons]
    simp
  · rw [if_neg hcc] at h
    have hc := v6Loop_colons (s.length + 1) s 0 [] b h
    simpa using hc

theorem parseV6_head (s : List Char) (b : List Nat) (h : parseV6 s = some b) :
    s.headD ' ' ≠ '[' := by
  unfold parseV6 at h
  by_cases hpc : s.contains '%'
  · rw [if_pos hpc] at h; simp at h
  rw [if_neg hpc] at h
  by_cases hcc : s.take 2 = [':', ':']
  · cases s with
    | nil => simp at hcc
    | cons a t =>
      have ha : a = ':' := by
        cases t with
        | nil => simp at hcc
        | cons a2 t2 =>
          simp only [List.take_succ_cons, List.take, List.cons.injEq] at hcc
          exact hcc.1
      rw [ha]
      simp only [List.headD_cons]
      decide
  · rw [if_neg hcc] at h
    cases hl : v6Loop (s.length + 1) s 0 none [] with
    | none => rw [hl] at h; simp [v6Expand] at h
    | some r =>
      have hne : (s.takeWhile isHex).length ≠ 0 := by
        intro hz
        unfold v6Loop at hl
        rw [if_neg (by omega : ¬ 16 ≤ 0), if_pos hz] at hl
        exact Option.noConfusion hl
      obtain ⟨c, cs, rfl, hc⟩ := takeWhile_head isHex s hne
      intro hh
      simp only [List.headD_cons] at hh
      rw [hh] at hc
      exact absurd hc (by decide)

/-! ## Dispatch and the full ParseIP -/

theorem dispatchIP_spec (full : List Char) : ∀ (l : List Char) (b : List Nat),
    dispatchIP full l = some b →
    (∃ b4, parseV4 full = some b4 ∧ b = v4InV6 b4) ∨ parseV6 full = some b := by
  intro l
  induction l with
  | nil => intro b h; simp [dispatchIP] at h
  | cons c cs ih =>
    intro b h
    unfold dispatchIP at h
    by_cases hdot : c = '.'
    · rw [if_pos hdot] at h
      left
      cases hp : parseV4 full with
      | none => rw [hp] at h; simp at h
      | some b4 =>
        rw [hp] at h
        simp only [Option.map_some'] at h
        exact ⟨b4, rfl, (Option.some.inj h).symm⟩
    rw [if_neg hdot] at h
    by_cases hcol : c = ':'
    · rw [if_pos hcol] at h
      exact Or.inr h
    rw [if_neg hcol] at h
    by_cases hpct : c = '%'
    · rw [if_pos hpct] at h; simp at h
    · rw [if_neg hpct] at h
      exact ih b h

theorem ParseIP_spec (s : List Char) (b : List Nat) (h : ParseIP s = some b) :
    (∃ b4, parseV4 s = some b4 ∧ b = v4InV6 b4) ∨ parseV6 s = some b :=
  dispatchIP_spec s s b h

theorem ParseIP_shape (s : List Char) (b : List Nat) (h : ParseIP s = some b) :
    b.length = 16 ∧ ∀ x ∈ b, x < 256 := by
  rcases ParseIP_spec s b h with ⟨b4, hp4, rfl⟩ | hp6
  · have hb := parseV4_bytes s b4 hp4
    constructor
    · simp [v4InV6, hb.1]
    · intro x hx
      unfold v4InV6 at hx
      rcases List.mem_append.mp hx with hx | hx
      · fin_cases hx <;> omega
      · exact hb.2 x hx
  · exact parseV6_shape s b hp6

theorem ParseIP_stripHostPort (s : List Char) (b : List Nat) (h : ParseIP s = some b) :
    splitHostPort s = none := by
  rcases ParseIP_spec s b h with ⟨b4, hp4, _⟩ | hp6
  · exact splitHostPort_none_of_no_colon s (parseV4_no_colon s b4 hp4)
  · exact splitHostPort_none_of_colons s (parseV6_colons s b hp6) (parseV6_head s b hp6)

/-! ## The CIDR mask over parsed bytes -/

theorem and_255_eq (x : Nat) (h : x < 256) : x &&& 255 = x := by
  have h2 := Nat.and_pow_two_sub_one_eq_mod x 8
  norm_num at h2
  rw [h2, Nat.mod_eq_of_lt h]

theorem zipWith_land_ff (xs : List Nat) : ∀ (n : Nat), xs.length = n →
    (∀ x ∈ xs, x < 256) →
    List.zipWith (fun x y => x &&& y) xs (List.replicate n 255) = xs := by
  induction xs with
  | nil =>
    intro n hlen _
    rw [← hlen]
    rfl
  | cons x xs ih =>
    intro n hlen hlt
    rw [← hlen]
    simp only [List.length_cons, List.replicate_succ, List.zipWith_cons_cons]
    rw [ih xs.length rfl (fun y hy => hlt y (List.mem_cons_of_mem x hy))]
    rw [and_255_eq x (hlt x (List.mem_cons_self x xs))]

theorem zipWith_land_zero (xs : List Nat) : ∀ (n : Nat), xs.length = n →
    List.zipWith (fun x y => x &&& y) xs (List.replicate n 0) = List.replicate n 0 := by
  induction xs with
  | nil =>
    intro n hlen
    rw [← hlen]
    rfl
  | cons x xs ih =>
    intro n hlen
    rw [← hlen]
    simp only [List.length_cons, List.replicate_succ, List.zipWith_cons_cons]
    rw [Nat.and_zero, ih xs.length rfl]

theorem maskIP_spec (b : List Nat) (hlen : b.length = 16) (hlt : ∀ x ∈ b, x < 256) :
    maskIP b cidrMask64 = b.take 8 ++ List.replicate 8 0 := by
  have hl1 : (b.take 8).length = 8 := by
    rw [List.length_take, hlen]
    omega
  have hl2 : (b.drop 8).length = 8 := by
    rw [List.length_drop, hlen]
  unfold maskIP cidrMask64
  conv_lhs => rw [← List.take_append_drop 8 b]
  rw [List.zipWith_append _ _ _ _ _ (by rw [hl1, List.length_replicate])]
  rw [zipWith_land_ff (b.take 8) 8 hl1 (fun x hx => hlt x (List.take_subset _ _ hx))]
  rw [zipWith_land_zero (b.drop 8) 8 hl2]

/-! ## To4 and NormalizeIP case lemmas -/

theorem take12_v4InV6 (b4 : List Nat) :
    (v4InV6 b4).take 12 = [0, 0, 0, 0, 0, 0, 0, 0, 0, 0, 255, 255] := by
  unfold v4InV6
  show List.take ([0, 0, 0, 0, 0, 0, 0, 0, 0, 0, 255, 255] : List Nat).length
    ([0, 0, 0, 0, 0, 0, 0, 0, 0, 0, 255, 255] ++ b4) = _
  exact List.take_left _ _

theorem drop12_v4InV6 (b4 : List Nat) : (v4InV6 b4).drop 12 = b4 := by
  unfold v4InV6
  show List.drop ([0, 0, 0, 0, 0, 0, 0, 0, 0, 0, 255, 255] : List Nat).length
    ([0, 0, 0, 0, 0, 0, 0, 0, 0, 0, 255, 255] ++ b4) = _
  exact List.drop_left _ _

theorem isV4Mapped_v4InV6 (b4 : List Nat) : isV4Mapped (v4InV6 b4) = true := by
  unfold isV4Mapped
  rw [take12_v4InV6]
  decide

theorem To4_v4InV6 (b4 : List Nat) (hlen : b4.length = 4) : To4 (v4InV6 b4) = some b4 := by
  unfold To4
  rw [if_neg (show ¬ (v4InV6 b4).length = 4 by simp [v4InV6, hlen])]
  rw [if_pos ⟨by simp [v4InV6, hlen], isV4Mapped_v4InV6 b4⟩]
  rw [drop12_v4InV6]

theorem To4_none (b : List Nat) (hlen : b.length = 16) (hmap : isV4Mapped b = false) :
    To4 b = none := by
  unfold To4
  rw [if_neg (by omega)]
  rw [if_neg (by simp [hmap])]

theorem To4_mapped (b : List Nat) (hlen : b.length = 16) (hmap : isV4Mapped b = true) :
    To4 b = some (b.drop 12) := by
  unfold To4
  rw [if_neg (by omega)]
  rw [if_pos ⟨hlen, hmap⟩]

theorem normalizeIPChars_to4 (s : List Char) (b ip4 : List Nat)
    (h : ParseIP s = some b) (h4 : To4 b = some ip4) :
    normalizeIPChars s = v4Chars ip4 := by
  unfold normalizeIPChars
  simp only [ParseIP_stripHostPort s b h, Option.getD_none, h, h4]

theorem normalizeIPChars_masked (s : List Char) (b : List Nat)
    (h : ParseIP s = some b) (h4 : To4 b = none) :
    normalizeIPChars s = ipToString (maskIP b cidrMask64) := by
  unfold normalizeIPChars
  simp only [ParseIP_stripHostPort s b h, Option.getD_none, h, h4]

theorem dispatchIP_v4route (full : List Char) : ∀ (l : List Char),
    (∀ c ∈ l, isDec c = true ∨ c = '.') → '.' ∈ l →
    dispatchIP full l = (parseV4 full).map v4InV6 := by
  intro l
  induction l with
  | nil => intro _ hdot; simp at hdot
  | cons c cs ih =>
    intro hall hdot
    unfold dispatchIP
    by_cases hc : c = '.'
    · rw [if_pos hc]
    · rw [if_neg hc]
      have hcd : isDec c = true := by
        rcases hall c (List.mem_cons_self c cs) with hgood | hgood
        · exact hgood
        · exact absurd hgood hc
      have hcs := isDec_spec c hcd
      have hne1 : c ≠ ':' := by
        intro he
        rw [he] at hcs
        exact absurd hcs (by decide)
      have hne2 : c ≠ '%' := by
        intro he
        rw [he] at hcs
        exact absurd hcs (by decide)
      rw [if_neg hne1, if_neg hne2]
      apply ih
      · intro x hx
        exact hall x (List.mem_cons_of_mem c hx)
      · rcases List.mem_cons.mp hdot with he | hin
        · exact absurd he.symm hc
        · exact hin

theorem ParseIP_of_parseV4 (s : List Char) (b4 : List Nat) (h : parseV4 s = some b4) :
    ParseIP s = some (v4InV6 b4) := by
  unfold ParseIP
  have hdot : '.' ∈ s := by
    obtain ⟨f0, f1, f2, f3, hsp, _, _, _, _, _⟩ := parseV4_spec s b4 h
    have hj := joinSep_splitDots s
    rw [hsp, joinSep_pair] at hj
    rw [← hj]
    exact List.mem_append.mpr (Or.inr (List.mem_cons_self _ _))
  rw [dispatchIP_v4route s s (parseV4_chars s b4 h) hdot, h]
  rfl

theorem NormalizeIP_of_parseV4 (s : String) (b4 : List Nat)
    (h : parseV4 s.data = some b4) : NormalizeIP s = s := by
  have hP := ParseIP_of_parseV4 s.data b4 h
  have hlen4 := (parseV4_bytes s.data b4 h).1
  unfold NormalizeIP
  rw [normalizeIPChars_to4 s.data (v4InV6 b4) b4 hP (To4_v4InV6 b4 hlen4)]
  rw [v4Chars_parseV4 s.data b4 h]

theorem NormalizeIP_masked (s : String) (b : List Nat) (h : ParseIP s.data = some b)
    (hm : isV4Mapped b = false) :
    NormalizeIP s = String.mk (ipToString (b.take 8 ++ List.replicate 8 0)) := by
  have hsh := ParseIP_shape s.data b h
  unfold NormalizeIP
  rw [normalizeIPChars_masked s.data b h (To4_none b hsh.1 hm)]
  rw [maskIP_spec b hsh.1 hsh.2]

theorem NormalizeIP_unparsable (s : String)
    (h : ParseIP ((splitHostPort s.data).getD s.data) = none) : NormalizeIP s = "" := by
  unfold NormalizeIP normalizeIPChars
  simp only [h]

/-- Claim C5 counterexample: an IPv4-mapped IPv6 literal parses (via the
IPv6 grammar, to the 16-byte form) but is normalized to its dotted
IPv4 text: it neither normalizes to itself (so the 4-byte reading of the
claim fails) nor to the canonical form of its zeroed 64-bit prefix,
which would be the double colon (so the 16-byte reading fails too). -/
theorem normalizeIP_v4mapped_counterexample :
    ParseIP (("::ffff:192.0.2.1" : String).data) =
      some [0, 0, 0, 0, 0, 0, 0, 0, 0, 0, 255, 255, 192, 0, 2, 1] ∧
    NormalizeIP ("::ffff:192.0.2.1") = "192.0.2.1" ∧
    NormalizeIP ("::ffff:192.0.2.1") ≠ "::ffff:192.0.2.1" ∧
    NormalizeIP ("::ffff:192.0.2.1") ≠
      String.mk (ipToString
        (([0, 0, 0, 0, 0, 0, 0, 0, 0, 0, 255, 255, 192, 0, 2, 1] : List Nat).take 8 ++
          List.replicate 8 0)) := by
  refine ⟨?_, ?_, ?_, ?_⟩ <;> decide

/-- Claim C5 as amended: a string in dotted-quad (v4) syntax that parses
normalizes to itself with no masking; a string that parses to a 16-byte
address that is not IPv4-mapped normalizes to the canonical text of its
leading 64 bits with the trailing 64 bits zeroed, so two such strings
sharing a 64-bit prefix normalize to the same identity; a string whose
(port-stripped) form does not parse yields the empty-string failure
signal.  (IPv4-mapped IPv6 input is the exception the original claim
missed: it is normalized as IPv4, see the counterexample.) -/
theorem normalizeIP_policy :
    (∀ (s : String) (b4 : List Nat), parseV4 s.data = some b4 → NormalizeIP s = s) ∧
    (∀ (s : String) (b : List Nat), ParseIP s.data = some b → isV4Mapped b = false →
       NormalizeIP s = String.mk (ipToString (b.take 8 ++ List.replicate 8 0))) ∧
    (∀ (s1 s2 : String) (b1 b2 : List Nat), ParseIP s1.data = some b1 →
       isV4Mapped b1 = false → ParseIP s2.data = some b2 → isV4Mapped b2 = false →
       b1.take 8 = b2.take 8 → NormalizeIP s1 = NormalizeIP s2) ∧
    (∀ s : String, ParseIP ((splitHostPort s.data).getD s.data) = none →
       NormalizeIP s = "") := by
  refine ⟨NormalizeIP_of_parseV4, NormalizeIP_masked, ?_, NormalizeIP_unparsable⟩
  intro s1 s2 b1 b2 h1 hm1 h2 hm2 htake
  rw [NormalizeIP_masked s1 b1 h1 hm1, NormalizeIP_masked s2 b2 h2 hm2, htake]

/-- Witness for the amended C5: a dotted-quad address is kept verbatim,
the spec's concrete IPv6 example masks to its /64 prefix, two addresses
in one /64 collapse to one identity, and garbage fails. -/
theorem normalizeIP_policy_witness :
    NormalizeIP ("203.0.113.5") = "203.0.113.5" ∧
    NormalizeIP ("2001:db8:1:1::1") = "2001:db8:1:1::" ∧
    NormalizeIP ("2001:db8:1:1::1") = NormalizeIP ("2001:db8:1:1::2") ∧
    NormalizeIP ("borked") = "" := by
  refine ⟨?_, ?_, ?_, ?_⟩
  · exact normalizeIP_policy.1 ("203.0.113.5") ([203, 0, 113, 5]) (by decide)
  · have h := normalizeIP_policy.2.1 ("2001:db8:1:1::1")
      ([32, 1, 13, 184, 0, 1, 0, 1, 0, 0, 0, 0, 0, 0, 0, 1]) (by decide) (by decide)
    rw [h]
    decide
  · exact normalizeIP_policy.2.2.1 ("2001:db8:1:1::1") ("2001:db8:1:1::2")
      ([32, 1, 13, 184, 0, 1, 0, 1, 0, 0, 0, 0, 0, 0, 0, 1])
      ([32, 1, 13, 184, 0, 1, 0, 1, 0, 0, 0, 0, 0, 0, 0, 2])
      (by decide) (by decide) (by decide) (by decide) (by decide)
  · exact normalizeIP_policy.2.2.2 ("borked") (by decide)

/-! ## IPv4-mapped addresses (C9) -/

theorem toNat_ofNat_valid (n : Nat) (h : n.isValidChar) : (Char.ofNat n).toNat = n := by
  simp only [Char.ofNat, dif_pos h]
  simp [Char.ofNatAux, Char.toNat, UInt32.toNat]

theorem decByte_head (n : Nat) (h : n < 256) :
    ∃ c cs, decByte n = c :: cs ∧ 48 ≤ c.toNat ∧ c.toNat ≤ 57 := by
  unfold decByte
  by_cases h10 : n < 10
  · rw [if_pos h10]
    refine ⟨_, _, rfl, ?_, ?_⟩ <;>
      rw [toNat_ofNat_valid (48 + n) (Or.inl (by omega))] <;> omega
  · rw [if_neg h10]
    by_cases h100 : n < 100
    · rw [if_pos h100]
      refine ⟨_, _, rfl, ?_, ?_⟩ <;>
        rw [toNat_ofNat_valid (48 + n / 10) (Or.inl (by omega))] <;> omega
    · rw [if_neg h100]
      refine ⟨_, _, rfl, ?_, ?_⟩ <;>
        rw [toNat_ofNat_valid (48 + n / 100) (Or.inl (by omega))] <;> omega

/-- Claim C9: every IPv4-mapped 16-byte address is normalized as an IPv4
address — printed as the dotted form of its last four bytes with full
precision — and is not masked to its 64-bit prefix (whose canonical form
here would be the bare double colon). -/
theorem v4mapped_kept_verbatim : ∀ (s : String) (b : List Nat),
    ParseIP s.data = some b → isV4Mapped b = true →
    NormalizeIP s = String.mk (v4Chars (b.drop 12)) ∧
    NormalizeIP s ≠ String.mk (ipToString (b.take 8 ++ List.replicate 8 0)) := by
  intro s b h hm
  have hsh := ParseIP_shape s.data b h
  have h1 : NormalizeIP s = String.mk (v4Chars (b.drop 12)) := by
    unfold NormalizeIP
    rw [normalizeIPChars_to4 s.data b (b.drop 12) h (To4_mapped b hsh.1 hm)]
  refine ⟨h1, ?_⟩
  have htake12 : b.take 12 = [0, 0, 0, 0, 0, 0, 0, 0, 0, 0, 255, 255] := by
    unfold isV4Mapped at hm
    exact eq_of_beq hm
  have htake8 : b.take 8 = List.replicate 8 0 := by
    have hq : b.take 8 = (b.take 12).take 8 := by
      rw [List.take_take]
      norm_num
    rw [hq, htake12]
    rfl
  rw [htake8, h1]
  rw [show List.replicate 8 0 ++ List.replicate 8 0 = List.replicate 16 (0 : Nat) from rfl]
  rw [show ipToString (List.replicate 16 (0 : Nat)) = [':', ':'] from rfl]
  have hdlen : (b.drop 12).length = 4 := by
    rw [List.length_drop, hsh.1]
  obtain ⟨x0, x1, x2, x3, hdrop⟩ : ∃ x0 x1 x2 x3, b.drop 12 = [x0, x1, x2, x3] := by
    cases hd : b.drop 12 with
    | nil => rw [hd] at hdlen; simp at hdlen
    | cons x0 t0 =>
    cases t0 with
    | nil => rw [hd] at hdlen; simp at hdlen
    | cons x1 t1 =>
    cases t1 with
    | nil => rw [hd] at hdlen; simp at hdlen
    | cons x2 t2 =>
    cases t2 with
    | nil => rw [hd] at hdlen; simp at hdlen
    | cons x3 t3 =>
    cases t3 with
    | cons x4 t4 => rw [hd] at hdlen; simp at hdlen
    | nil => exact ⟨x0, x1, x2, x3, rfl⟩
  rw [hdrop]
  have hx0 : x0 < 256 := by
    apply hsh.2
    apply List.drop_subset 12 b
    rw [hdrop]
    exact List.mem_cons_self _ _
  obtain ⟨c, cs', hdec, hc1, hc2⟩ := decByte_head x0 hx0
  intro he
  have hlist : v4Chars [x0, x1, x2, x3] = [':', ':'] := String.ext_iff.mp he
  simp only [v4Chars] at hlist
  rw [hdec, List.cons_append] at hlist
  have hcc : c = ':' := (List.cons.injEq _ _ _ _).mp hlist |>.1
  rw [hcc] at hc2
  exact absurd hc2 (by decide)

/-- Witness for C9: a concrete IPv4-mapped literal keeps its full
4-byte precision. -/
theorem v4mapped_kept_verbatim_witness :
    NormalizeIP ("::ffff:198.51.100.77") = "198.51.100.77" := by
  have h := (v4mapped_kept_verbatim ("::ffff:198.51.100.77")
    ([0, 0, 0, 0, 0, 0, 0, 0, 0, 0, 255, 255, 198, 51, 100, 77]) (by decide) (by decide)).1
  rw [h]
  decide

end Blog
